import Mathlib

set_option maxRecDepth 4000
set_option maxHeartbeats 1000000

/-
Shallow embedding of the stroke-outline / eraser engine of
React-Native-Stylus-Support (src/src/drawing/strokePath.ts and
src/src/drawing/Stroke.ts).

JS numbers are modelled as rationals.  The transcendental library
functions used by the source (Math.sqrt, Math.cos, Math.sin, Math.atan2,
Math.PI) have no exact computable counterpart on the rationals, so they
are parameters of the embedding, bundled in the structure MathFns; every
definition that the source writes with those functions takes a MathFns
argument and uses its fields exactly where the source calls the library.
Concrete evaluations instantiate MathFns with ratFns, whose sqrt is exact
on perfect rational squares (every concrete input below is chosen so that
the square roots that influence the stated facts are exact).
-/

-- ---------------------------------------------------------------------------
-- Data model
-- ---------------------------------------------------------------------------

/-- Raw input point (strokePath.ts, Stroke.ts type Point): position plus
optional pressure.  The Stroke.ts variant also carries optional tilt/time,
which no function in scope reads, so they are omitted. -/
structure Pt where
  x : ℚ
  y : ℚ
  pressure : Option ℚ
deriving DecidableEq, Repr

/-- A streamline-smoothed point (the `{x, y, pressure}` records built in
processPoints, with the pressure default already applied). -/
structure SmPt where
  x : ℚ
  y : ℚ
  pressure : ℚ
deriving DecidableEq, Repr

/-- Processed stroke point (strokePath.ts interface StrokePoint). -/
structure StrokePoint where
  x : ℚ
  y : ℚ
  pressure : ℚ
  vx : ℚ
  vy : ℚ
  distance : ℚ
  runningLength : ℚ
  radius : ℚ
deriving DecidableEq, Repr

def dummyPt : Pt := ⟨0, 0, none⟩

def dummySmPt : SmPt := ⟨0, 0, 0⟩

def dummyStrokePoint : StrokePoint := ⟨0, 0, 0, 0, 0, 0, 0, 0⟩

/-- The JS Math library functions used by the source, as parameters of the
embedding.  `atan2deg y x` models `Math.atan2(y, x) * (180 / Math.PI)`
(the source always multiplies by that constant factor immediately);
`pi` models `Math.PI`. -/
structure MathFns where
  sqrt : ℚ → ℚ
  cos : ℚ → ℚ
  sin : ℚ → ℚ
  atan2deg : ℚ → ℚ → ℚ
  pi : ℚ

/-- Models `Math.hypot(dx, dy)` = sqrt(dx² + dy²). -/
def hypotQ (f : MathFns) (dx dy : ℚ) : ℚ := f.sqrt (dx * dx + dy * dy)

/-- Fuel-based Newton iteration for the integer square root (structurally
recursive so that kernel reduction can evaluate it; the fuel `n` always
suffices because the iteration halves the guess gap each step). -/
def natSqrtIter : ℕ → ℕ → ℕ → ℕ
  | 0, _, guess => guess
  | fuel + 1, n, guess =>
    let next := (guess + n / guess) / 2
    if next < guess then natSqrtIter fuel n next else guess

/-- Integer square root (exact on perfect squares). -/
def natSqrt (n : ℕ) : ℕ := if n ≤ 1 then n else natSqrtIter n n (n / 2)

/-- Exact rational square root on perfect squares (numerator and
denominator of the reduced fraction both perfect squares); an arbitrary
(under-approximating) value elsewhere.  Used to instantiate MathFns.sqrt
on concrete inputs. -/
def ratSqrt (q : ℚ) : ℚ := (natSqrt q.num.toNat : ℚ) / (natSqrt q.den : ℚ)

/-- Concrete MathFns instantiation for closed evaluations.  The statements
evaluated with it are chosen so that they do not depend on the junk values
(sqrt is exact at every perfect square that matters; cos/sin/atan2deg/pi
only occur inside commands compared on both sides of an (in)equality that
is decided by coordinates not involving them). -/
def ratFns : MathFns :=
  { sqrt := ratSqrt
    cos := fun _ => 1
    sin := fun _ => 0
    atan2deg := fun _ _ => 0
    pi := 157 / 50 }

-- ---------------------------------------------------------------------------
-- Options (strokePath.ts StrokePathOptions, fully populated as after the
-- `{ ...DEFAULT_OPTIONS, ...options }` merge in buildStrokePath)
-- ---------------------------------------------------------------------------

/-- The `taper` field of start/end options: `false`/`undefined`, `true`, or
an explicit distance (source type `number | boolean | undefined`). -/
inductive TaperOpt where
  | off : TaperOpt
  | full : TaperOpt
  | dist : ℚ → TaperOpt

structure StrokePathOptions where
  size : ℚ
  thinning : ℚ
  smoothing : ℚ
  streamline : ℚ
  easing : ℚ → ℚ
  simulatePressure : Bool
  startCap : Bool
  startTaper : TaperOpt
  startEasing : ℚ → ℚ
  endCap : Bool
  endTaper : TaperOpt
  endEasing : ℚ → ℚ
  last : Bool

/-- Default start easing `t => t * (2 - t)`. -/
def easeOutQuad (t : ℚ) : ℚ := t * (2 - t)

/-- Default end easing `t => { t -= 1; return t * t * t + 1; }`. -/
def easeInCubic (t : ℚ) : ℚ := (t - 1) * (t - 1) * (t - 1) + 1

def DEFAULT_OPTIONS : StrokePathOptions :=
  { size := 16
    thinning := 1/2
    smoothing := 1/2
    streamline := 1/2
    easing := fun t => t
    simulatePressure := false
    startCap := true
    startTaper := .off
    startEasing := easeOutQuad
    endCap := true
    endTaper := .off
    endEasing := easeInCubic
    last := false }

-- Constants (strokePath.ts)

def RATE_OF_PRESSURE_CHANGE : ℚ := 275/1000
def MIN_RADIUS : ℚ := 1/100
def MIN_STREAMLINE_T : ℚ := 15/100
def STREAMLINE_T_RANGE : ℚ := 85/100
def END_NOISE_THRESHOLD : ℚ := 3
def CORNER_CAP_SEGMENTS : ℕ := 13

/-- `FIXED_PI = Math.PI + 0.0001`. -/
def FIXED_PI (f : MathFns) : ℚ := f.pi + 1/10000

-- ---------------------------------------------------------------------------
-- Helper functions (strokePath.ts)
-- ---------------------------------------------------------------------------

def simulatePressureFn (prevPressure distance size : ℚ) : ℚ :=
  let sp := min 1 (distance / size)
  let rp := min 1 (1 - sp)
  min 1 (prevPressure + (rp - prevPressure) * (sp * RATE_OF_PRESSURE_CHANGE))

def getStrokeRadius (size thinning pressure : ℚ) (easing : ℚ → ℚ) : ℚ :=
  size * easing (1/2 - thinning * (1/2 - pressure))

def computeTaperDistance (taper : TaperOpt) (size totalLength : ℚ) : ℚ :=
  match taper with
  | .off => 0
  | .full => max size totalLength
  | .dist q => q

/-- Dot product of 2D vectors. -/
def dotQ (ax ay bx by' : ℚ) : ℚ := ax * bx + ay * by'

def squaredDist (ax ay bx by' : ℚ) : ℚ :=
  (ax - bx) * (ax - bx) + (ay - by') * (ay - by')

-- ---------------------------------------------------------------------------
-- Step 1: processPoints (streamline smoothing + pressure + radius)
-- ---------------------------------------------------------------------------

/-- The streamline interpolation factor `t = MIN_STREAMLINE_T +
(1 - streamline) * STREAMLINE_T_RANGE`. -/
def streamT (o : StrokePathOptions) : ℚ :=
  MIN_STREAMLINE_T + (1 - o.streamline) * STREAMLINE_T_RANGE

/-- One iteration of the streamline loop of processPoints: given the
accumulated smoothed list (never empty) and the current raw point, either
appends one smoothed point or discards the candidate.  `isLast` is the
loop's `i === rawPoints.length - 1`. -/
def smoothStep (o : StrokePathOptions) (acc : List SmPt) (raw : Pt) (isLast : Bool) :
    List SmPt :=
  match acc.getLast? with
  | none => acc
  | some prev =>
    let t := streamT o
    let px := if o.last && isLast then raw.x else prev.x + (raw.x - prev.x) * t
    let py := if o.last && isLast then raw.y else prev.y + (raw.y - prev.y) * t
    let dx := px - prev.x
    let dy := py - prev.y
    if dx * dx + dy * dy < 1/100 then acc
    else acc ++ [⟨px, py, raw.pressure.getD (1/2)⟩]

def smoothGo (o : StrokePathOptions) (acc : List SmPt) : List Pt → List SmPt
  | [] => acc
  | r :: rs => smoothGo o (smoothStep o acc r rs.isEmpty) rs

/-- The streamline-smoothing phase of processPoints (lines 168–190). -/
def smoothPhase (o : StrokePathOptions) : List Pt → List SmPt
  | [] => []
  | r0 :: rest => smoothGo o [⟨r0.x, r0.y, r0.pressure.getD (1/2)⟩] rest

/-- `if (smoothed.length === 1)` add a tiny (+1,+1) offset copy so there
are at least 2 points (lines 192–199). -/
def padSmoothed (l : List SmPt) : List SmPt :=
  match l with
  | [p] => [p, ⟨p.x + 1, p.y + 1, p.pressure⟩]
  | _ => l

/-- Initial pressure averaging over the first ≤10 smoothed points
(lines 206–218): repeated halving toward each subsequent pressure. -/
def initAveragedPressure (f : MathFns) (o : StrokePathOptions) (sm : List SmPt) : ℚ :=
  let slice := sm.take 10
  let seed := (sm.headD dummySmPt).pressure
  slice.enum.foldl
    (fun acc ip =>
      let idx := ip.1
      let pt := ip.2
      let p :=
        if o.simulatePressure && decide (0 < idx) then
          let prev := slice.getD (idx - 1) pt
          simulatePressureFn acc (hypotQ f (pt.x - prev.x) (pt.y - prev.y)) o.size
        else pt.pressure
      (acc + p) / 2)
    seed

/-- Second phase of processPoints (lines 220–247): build the StrokePoint
list carrying running length and previous pressure through the loop. -/
def buildStrokePointsGo (f : MathFns) (o : StrokePathOptions) :
    List SmPt → Option SmPt → ℚ → ℚ → List StrokePoint
  | [], _, _, _ => []
  | pt :: rest, prevOpt, runningLength, prevPressure =>
    let distance : ℚ :=
      match prevOpt with
      | none => 0
      | some prev => hypotQ f (pt.x - prev.x) (pt.y - prev.y)
    let v : ℚ × ℚ :=
      match prevOpt with
      | none => (0, 0)
      | some prev =>
        if 0 < distance then ((pt.x - prev.x) / distance, (pt.y - prev.y) / distance)
        else (0, 0)
    let vx := v.1
    let vy := v.2
    let rl := runningLength + distance
    let pressure :=
      if o.simulatePressure then simulatePressureFn prevPressure distance o.size
      else pt.pressure
    let radius :=
      if o.thinning = 0 then o.size / 2
      else max MIN_RADIUS (getStrokeRadius o.size o.thinning pressure o.easing)
    ⟨pt.x, pt.y, pressure, vx, vy, distance, rl, radius⟩ ::
      buildStrokePointsGo f o rest (some pt) rl pressure

/-- `result[0].vx = result[1].vx; result[0].vy = result[1].vy` (lines 250–253). -/
def fixFirstVec : List StrokePoint → List StrokePoint
  | p0 :: p1 :: rest => { p0 with vx := p1.vx, vy := p1.vy } :: p1 :: rest
  | l => l

/-- strokePath.ts processPoints (lines 150–256). -/
def processPoints (f : MathFns) (o : StrokePathOptions) (rawPoints : List Pt) :
    List StrokePoint :=
  match rawPoints with
  | [] => []
  | r0 :: rest =>
    let smoothed := padSmoothed (smoothGo o [⟨r0.x, r0.y, r0.pressure.getD (1/2)⟩] rest)
    fixFirstVec (buildStrokePointsGo f o smoothed none 0 (initAveragedPressure f o smoothed))

-- ---------------------------------------------------------------------------
-- Step 2: buildOutlineArrays (left/right rails with tapering + corners)
-- ---------------------------------------------------------------------------

structure CornerCap where
  x : ℚ
  y : ℚ
  vx : ℚ
  vy : ℚ
  radius : ℚ
deriving DecidableEq, Repr

structure OutlineArrays where
  leftX : List ℚ
  leftY : List ℚ
  rightX : List ℚ
  rightY : List ℚ
  cornerCaps : List CornerCap
deriving DecidableEq, Repr

/-- The taper-adjusted radius computed at lines 302–309 of strokePath.ts:
`radius = Math.max(MIN_RADIUS, radius * Math.min(taperStartStr, taperEndStr))`. -/
def taperedRadius (startEase endEase : ℚ → ℚ) (taperStart taperEnd totalLength runningLength radius : ℚ) : ℚ :=
  let taperStartStr :=
    if runningLength < taperStart then startEase (runningLength / taperStart) else 1
  let taperEndStr :=
    if totalLength - runningLength < taperEnd then
      endEase ((totalLength - runningLength) / taperEnd)
    else 1
  max MIN_RADIUS (radius * min taperStartStr taperEndStr)

/-- The semicircular corner fan (lines 323–343): 14 sample angles
`t = 0, 1/13, …, 13/13` of `FIXED_PI * t`. -/
def cornerFan (f : MathFns) (arr : OutlineArrays) (px py perpVx perpVy radius : ℚ) :
    OutlineArrays :=
  (List.range (CORNER_CAP_SEGMENTS + 1)).foldl
    (fun a k =>
      let t : ℚ := (k : ℚ) / (CORNER_CAP_SEGMENTS : ℚ)
      let angle := FIXED_PI f * t
      let cosA := f.cos angle
      let sinA := f.sin angle
      let ox := perpVx * radius
      let oy := perpVy * radius
      let lrx := -ox * cosA - (-oy) * sinA
      let lry := -ox * sinA + (-oy) * cosA
      let rrx := ox * cosA - oy * sinA
      let rry := ox * sinA + oy * cosA
      { a with
        leftX := a.leftX ++ [px + lrx]
        leftY := a.leftY ++ [py + lry]
        rightX := a.rightX ++ [px + rrx]
        rightY := a.rightY ++ [py + rry] })
    arr

/-- One iteration of the main loop of buildOutlineArrays (lines 294–385);
the Bool component of the state is `isPrevSharpCorner`. -/
def outlineStep (f : MathFns) (o : StrokePathOptions) (pts : List StrokePoint)
    (n : ℕ) (totalLength taperStart taperEnd minDist2 : ℚ)
    (st : OutlineArrays × Bool) (i : ℕ) : OutlineArrays × Bool :=
  let arr := st.1
  let isPrevSharpCorner := st.2
  let pt := pts.getD i dummyStrokePoint
  let isLast : Bool := decide (i = n - 1)
  if ¬isLast ∧ totalLength - pt.runningLength < END_NOISE_THRESHOLD then st
  else
    let radius :=
      taperedRadius o.startEasing o.endEasing taperStart taperEnd totalLength
        pt.runningLength pt.radius
    let nextVx := if isLast then pt.vx else (pts.getD (i + 1) dummyStrokePoint).vx
    let nextVy := if isLast then pt.vy else (pts.getD (i + 1) dummyStrokePoint).vy
    let nextDot := if isLast then 1 else dotQ pt.vx pt.vy nextVx nextVy
    let prevDot :=
      if 0 < i then
        dotQ pt.vx pt.vy (pts.getD (i - 1) dummyStrokePoint).vx
          (pts.getD (i - 1) dummyStrokePoint).vy
      else 1
    let isSharpCorner : Bool := decide (prevDot < 0) && !isPrevSharpCorner
    let isNextSharp : Bool := decide (nextDot < 0)
    if isSharpCorner || isNextSharp then
      let arr := { arr with cornerCaps := arr.cornerCaps ++ [⟨pt.x, pt.y, pt.vx, pt.vy, radius⟩] }
      let arr := cornerFan f arr pt.x pt.y pt.vy (-pt.vx) radius
      (arr, if isNextSharp then true else isPrevSharpCorner)
    else
      let od : ℚ × ℚ :=
        if isLast then (pt.vy, -pt.vx)
        else
          let blendX := nextVx + pt.vx
          let blendY := nextVy + pt.vy
          let blendLen := hypotQ f blendX blendY
          if blendLen < 1/1000000 then (pt.vy, -pt.vx)
          else (blendY / blendLen, -blendX / blendLen)
      let ox := od.1
      let oy := od.2
      let lx := pt.x - ox * radius
      let ly := pt.y - oy * radius
      let rx := pt.x + ox * radius
      let ry := pt.y + oy * radius
      let arr :=
        if i ≤ 1 ∨ arr.leftX = [] ∨
            minDist2 < squaredDist (arr.leftX.getLastD 0) (arr.leftY.getLastD 0) lx ly then
          { arr with leftX := arr.leftX ++ [lx], leftY := arr.leftY ++ [ly] }
        else arr
      let arr :=
        if i ≤ 1 ∨ arr.rightX = [] ∨
            minDist2 < squaredDist (arr.rightX.getLastD 0) (arr.rightY.getLastD 0) rx ry then
          { arr with rightX := arr.rightX ++ [rx], rightY := arr.rightY ++ [ry] }
        else arr
      (arr, false)

/-- strokePath.ts buildOutlineArrays (lines 271–388).  Only called on
non-empty point lists (the getD defaults are never read on such input). -/
def buildOutlineArrays (f : MathFns) (o : StrokePathOptions) (pts : List StrokePoint) :
    OutlineArrays :=
  let n := pts.length
  let totalLength := (pts.getLastD dummyStrokePoint).runningLength
  let taperStart := computeTaperDistance o.startTaper o.size totalLength
  let taperEnd := computeTaperDistance o.endTaper o.size totalLength
  let minDist2 := (o.size * o.smoothing) * (o.size * o.smoothing)
  ((List.range n).foldl (outlineStep f o pts n totalLength taperStart taperEnd minDist2)
    (⟨[], [], [], [], []⟩, false)).1

-- ---------------------------------------------------------------------------
-- Step 3: assembleSkiaPath (Skia path command list)
-- ---------------------------------------------------------------------------

/-- A Skia path-building command.  arcToOval carries the oval rect
(x, y, width, height), start angle in degrees, sweep angle, forceMoveTo. -/
inductive PathCmd where
  | moveTo (x y : ℚ)
  | lineTo (x y : ℚ)
  | cubicTo (c1x c1y c2x c2y x y : ℚ)
  | arcToOval (ox oy w h startAngle sweep : ℚ) (forceMove : Bool)
  | addCircle (x y r : ℚ)
  | close
deriving DecidableEq, Repr

/-- A Skia path: its command list plus the isVolatile flag. -/
structure SkPathM where
  cmds : List PathCmd
  volatile : Bool
deriving DecidableEq, Repr

/-- strokePath.ts assembleSkiaPath (lines 400–512). -/
def assembleSkiaPath (f : MathFns) (pts : List StrokePoint) (outline : OutlineArrays)
    (o : StrokePathOptions) : List PathCmd :=
  let lx := outline.leftX
  let ly := outline.leftY
  let rx := outline.rightX
  let ry := outline.rightY
  let nL := lx.length
  let nR := rx.length
  if nL = 0 ∨ nR = 0 then []
  else
    let totalLength := (pts.getLastD dummyStrokePoint).runningLength
    let taperStart := computeTaperDistance o.startTaper o.size totalLength
    let taperEnd := computeTaperDistance o.endTaper o.size totalLength
    let capStart := o.startCap
    let capEnd := o.endCap
    if pts.length = 1 ∨ (nL < 2 ∧ nR < 2) then
      [.addCircle (pts.getD 0 dummyStrokePoint).x (pts.getD 0 dummyStrokePoint).y
        (max (1/2) (pts.getD 0 dummyStrokePoint).radius)]
    else
      let startCmds : List PathCmd :=
        [.moveTo (rx.getD 0 0) (ry.getD 0 0)] ++
        (if 0 < taperStart then []
         else if capStart then
           let cx := (rx.getD 0 0 + lx.getD 0 0) / 2
           let cy := (ry.getD 0 0 + ly.getD 0 0) / 2
           let r := hypotQ f (rx.getD 0 0 - lx.getD 0 0) (ry.getD 0 0 - ly.getD 0 0) / 2
           if 1/10 < r then
             [.arcToOval (cx - r) (cy - r) (r * 2) (r * 2)
               (f.atan2deg (ry.getD 0 0 - cy) (rx.getD 0 0 - cx)) 180 false]
           else []
         else [.lineTo (lx.getD 0 0) (ly.getD 0 0)])
      let leftCmds : List PathCmd :=
        if 1 < nL then
          (List.range (nL - 1)).map (fun i =>
            let i0 := i - 1
            let i3 := min (nL - 1) (i + 2)
            .cubicTo
              (lx.getD i 0 + (lx.getD (i + 1) 0 - lx.getD i0 0) / 6)
              (ly.getD i 0 + (ly.getD (i + 1) 0 - ly.getD i0 0) / 6)
              (lx.getD (i + 1) 0 - (lx.getD i3 0 - lx.getD i 0) / 6)
              (ly.getD (i + 1) 0 - (ly.getD i3 0 - ly.getD i 0) / 6)
              (lx.getD (i + 1) 0) (ly.getD (i + 1) 0))
        else []
      let endCmds : List PathCmd :=
        if 0 < taperEnd then [.lineTo (rx.getD (nR - 1) 0) (ry.getD (nR - 1) 0)]
        else if capEnd then
          let cx := (lx.getD (nL - 1) 0 + rx.getD (nR - 1) 0) / 2
          let cy := (ly.getD (nL - 1) 0 + ry.getD (nR - 1) 0) / 2
          let r := hypotQ f (lx.getD (nL - 1) 0 - rx.getD (nR - 1) 0)
                      (ly.getD (nL - 1) 0 - ry.getD (nR - 1) 0) / 2
          if 1/10 < r then
            [.arcToOval (cx - r) (cy - r) (r * 2) (r * 2)
              (f.atan2deg (ly.getD (nL - 1) 0 - cy) (lx.getD (nL - 1) 0 - cx)) 180 false]
          else []
        else [.lineTo (rx.getD (nR - 1) 0) (ry.getD (nR - 1) 0)]
      let rightCmds : List PathCmd :=
        if 1 < nR then
          (List.range (nR - 1)).map (fun k =>
            let i := nR - 1 - k
            let i0 := min (nR - 1) (i + 1)
            let i3 := i - 2
            .cubicTo
              (rx.getD i 0 + (rx.getD (i - 1) 0 - rx.getD i0 0) / 6)
              (ry.getD i 0 + (ry.getD (i - 1) 0 - ry.getD i0 0) / 6)
              (rx.getD (i - 1) 0 - (rx.getD i3 0 - rx.getD i 0) / 6)
              (ry.getD (i - 1) 0 - (ry.getD i3 0 - ry.getD i 0) / 6)
              (rx.getD (i - 1) 0) (ry.getD (i - 1) 0))
        else []
      startCmds ++ leftCmds ++ endCmds ++ rightCmds ++ [.close]

/-- strokePath.ts buildStrokePath (lines 527–542), with the options merge
already performed (the embedding takes the fully populated options). -/
def buildStrokePath (f : MathFns) (o : StrokePathOptions) (points : List Pt) : SkPathM :=
  if points.length = 0 then ⟨[], false⟩
  else
    let strokePoints := processPoints f o points
    if strokePoints.length = 0 then ⟨[], false⟩
    else ⟨assembleSkiaPath f strokePoints (buildOutlineArrays f o strokePoints) o, false⟩

-- ---------------------------------------------------------------------------
-- strokePath.ts IncrementalRibbon (streamline variant, lines 634–722)
-- ---------------------------------------------------------------------------

namespace StrokePathTs

/-- The options the strokePath.ts IncrementalRibbon constructor derives
from minRadius/maxRadius (lines 649–662); also the options buildRibbonPath
(the legacy wrapper, lines 552–575) passes to buildStrokePath, except that
the wrapper sets `last := true`. -/
def ribbonOpts (minRadius maxRadius : ℚ) : StrokePathOptions :=
  { DEFAULT_OPTIONS with
    size := maxRadius * 2
    thinning := if 0 < maxRadius then 1 - minRadius / maxRadius else 1/2
    smoothing := 3/10
    streamline := 2/5
    simulatePressure := false
    startCap := true
    startTaper := .off
    endCap := true
    endTaper := .off
    last := false }

structure IncrementalRibbon where
  minRadius : ℚ
  maxRadius : ℚ
  rawPoints : List Pt
  smoothedPoints : List Pt
  opts : StrokePathOptions

def IncrementalRibbon.mk0 (minRadius maxRadius : ℚ) : IncrementalRibbon :=
  ⟨minRadius, maxRadius, [], [], ribbonOpts minRadius maxRadius⟩

/-- addPoint (lines 665–683): always appends to the raw buffer, extends the
smoothed buffer by at most one streamlined point. -/
def IncrementalRibbon.addPoint (s : IncrementalRibbon) (x y pressure : ℚ) :
    IncrementalRibbon :=
  let rawPoints := s.rawPoints ++ [⟨x, y, some pressure⟩]
  let t := MIN_STREAMLINE_T + (1 - s.opts.streamline) * STREAMLINE_T_RANGE
  let smoothedPoints :=
    if s.smoothedPoints.length = 0 then s.smoothedPoints ++ [⟨x, y, some pressure⟩]
    else
      let prev := s.smoothedPoints.getLastD dummyPt
      let sx := prev.x + (x - prev.x) * t
      let sy := prev.y + (y - prev.y) * t
      let dx := sx - prev.x
      let dy := sy - prev.y
      if 1/100 ≤ dx * dx + dy * dy then s.smoothedPoints ++ [⟨sx, sy, some pressure⟩]
      else s.smoothedPoints
  { s with rawPoints := rawPoints, smoothedPoints := smoothedPoints }

/-- getPath (lines 689–699): the batch pipeline over the smoothed buffer,
marked volatile. -/
def IncrementalRibbon.getPath (f : MathFns) (s : IncrementalRibbon) : SkPathM :=
  if s.smoothedPoints.length = 0 then ⟨[], false⟩
  else
    let strokePoints := processPoints f s.opts s.smoothedPoints
    if strokePoints.length = 0 then ⟨[], false⟩
    else
      ⟨assembleSkiaPath f strokePoints (buildOutlineArrays f s.opts strokePoints) s.opts,
       true⟩

def IncrementalRibbon.pointCount (s : IncrementalRibbon) : ℕ := s.rawPoints.length

def IncrementalRibbon.reset (s : IncrementalRibbon) : IncrementalRibbon :=
  { s with rawPoints := [], smoothedPoints := [] }

end StrokePathTs

-- ---------------------------------------------------------------------------
-- Stroke.ts: buildRibbonPath (batch) and the cached IncrementalRibbon
-- ---------------------------------------------------------------------------

namespace Stroke

/-- Pressure-derived radius `Math.max(0.5, minRadius + (maxRadius -
minRadius) * (pressure ?? 0.5))` (identical in buildRibbonPath line 182
and IncrementalRibbon._updateCache line 369). -/
def pressureRadius (minRadius maxRadius : ℚ) (p : Pt) : ℚ :=
  max (1/2) (minRadius + (maxRadius - minRadius) * p.pressure.getD (1/2))

/-- Tangent at index `i`: forward difference at the start, backward at the
end, central elsewhere; (0,0) for a single point (identical branch
structure in buildRibbonPath lines 188–198 and _updateCache lines 377–391;
the batch builder never evaluates the single-point case because it returns
a circle before reaching this code). -/
def tangentAt (pts : List Pt) (i : ℕ) : ℚ × ℚ :=
  let n := pts.length
  if n = 1 then (0, 0)
  else if i = 0 then
    ((pts.getD 1 dummyPt).x - (pts.getD 0 dummyPt).x,
     (pts.getD 1 dummyPt).y - (pts.getD 0 dummyPt).y)
  else if i = n - 1 then
    ((pts.getD (n - 1) dummyPt).x - (pts.getD (n - 2) dummyPt).x,
     (pts.getD (n - 1) dummyPt).y - (pts.getD (n - 2) dummyPt).y)
  else
    ((pts.getD (i + 1) dummyPt).x - (pts.getD (i - 1) dummyPt).x,
     (pts.getD (i + 1) dummyPt).y - (pts.getD (i - 1) dummyPt).y)

/-- Perpendicular unit vector at index `i`, with the degenerate-tangent
fallback to the previous perpendicular (or (0,1) at index 0); identical
formulas in buildRibbonPath lines 200–207 and _updateCache lines 393–400. -/
def perpAt (f : MathFns) (pts : List Pt) : ℕ → ℚ × ℚ
  | 0 =>
    let txy := tangentAt pts 0
    let len := hypotQ f txy.1 txy.2
    if len < 1/1000000 then (0, 1) else (-txy.2 / len, txy.1 / len)
  | i + 1 =>
    let txy := tangentAt pts (i + 1)
    let len := hypotQ f txy.1 txy.2
    if len < 1/1000000 then perpAt f pts i else (-txy.2 / len, txy.1 / len)

/-- The ribbon assembly (start cap, left rail, end cap, reversed right
rail, close) shared verbatim between buildRibbonPath lines 230–282 and
IncrementalRibbon.getPath lines 447–508; takes the per-point arrays. -/
def assembleRibbon (f : MathFns) (pts : List Pt)
    (radii perpX perpY lx ly rx ry : List ℚ) : List PathCmd :=
  let n := pts.length
  let startR := radii.getD 0 0
  let startAng := f.atan2deg (perpY.getD 0 0) (perpX.getD 0 0)
  let endR := radii.getD (n - 1) 0
  let endAng := f.atan2deg (perpY.getD (n - 1) 0) (perpX.getD (n - 1) 0)
  [.moveTo (rx.getD 0 0) (ry.getD 0 0),
   .arcToOval ((pts.getD 0 dummyPt).x - startR) ((pts.getD 0 dummyPt).y - startR)
     (startR * 2) (startR * 2) (startAng + 90) 180 false] ++
  (List.range (n - 1)).map (fun i =>
    let i0 := i - 1
    let i3 := min (n - 1) (i + 2)
    .cubicTo
      (lx.getD i 0 + (lx.getD (i + 1) 0 - lx.getD i0 0) / 6)
      (ly.getD i 0 + (ly.getD (i + 1) 0 - ly.getD i0 0) / 6)
      (lx.getD (i + 1) 0 - (lx.getD i3 0 - lx.getD i 0) / 6)
      (ly.getD (i + 1) 0 - (ly.getD i3 0 - ly.getD i 0) / 6)
      (lx.getD (i + 1) 0) (ly.getD (i + 1) 0)) ++
  [.arcToOval ((pts.getD (n - 1) dummyPt).x - endR) ((pts.getD (n - 1) dummyPt).y - endR)
     (endR * 2) (endR * 2) (endAng - 90) 180 false] ++
  (List.range (n - 1)).map (fun k =>
    let i := n - 1 - k
    let i0 := min (n - 1) (i + 1)
    let i3 := i - 2
    .cubicTo
      (rx.getD i 0 + (rx.getD (i - 1) 0 - rx.getD i0 0) / 6)
      (ry.getD i 0 + (ry.getD (i - 1) 0 - ry.getD i0 0) / 6)
      (rx.getD (i - 1) 0 - (rx.getD i3 0 - rx.getD i 0) / 6)
      (ry.getD (i - 1) 0 - (ry.getD i3 0 - ry.getD i 0) / 6)
      (rx.getD (i - 1) 0) (ry.getD (i - 1) 0)) ++
  [.close]

/-- Stroke.ts buildRibbonPath (lines 158–283). -/
def buildRibbonPath (f : MathFns) (points : List Pt) (minRadius maxRadius : ℚ) :
    SkPathM :=
  if points.length = 0 then ⟨[], false⟩
  else if points.length = 1 then
    let r := minRadius + (maxRadius - minRadius) * (points.getD 0 dummyPt).pressure.getD (1/2)
    ⟨[.addCircle (points.getD 0 dummyPt).x (points.getD 0 dummyPt).y (max (1/2) r)], false⟩
  else
    let n := points.length
    let radii := (List.range n).map (fun i => pressureRadius minRadius maxRadius (points.getD i dummyPt))
    let perpX := (List.range n).map (fun i => (perpAt f points i).1)
    let perpY := (List.range n).map (fun i => (perpAt f points i).2)
    let leftX := (List.range n).map (fun i =>
      (points.getD i dummyPt).x + (perpAt f points i).1 * pressureRadius minRadius maxRadius (points.getD i dummyPt))
    let leftY := (List.range n).map (fun i =>
      (points.getD i dummyPt).y + (perpAt f points i).2 * pressureRadius minRadius maxRadius (points.getD i dummyPt))
    let rightX := (List.range n).map (fun i =>
      (points.getD i dummyPt).x - (perpAt f points i).1 * pressureRadius minRadius maxRadius (points.getD i dummyPt))
    let rightY := (List.range n).map (fun i =>
      (points.getD i dummyPt).y - (perpAt f points i).2 * pressureRadius minRadius maxRadius (points.getD i dummyPt))
    ⟨assembleRibbon f points radii perpX perpY leftX leftY rightX rightY, false⟩

/-- Stroke.ts IncrementalRibbon state (lines 311–331): the points, the
seven cached per-point arrays, and the `_cacheValid` watermark
(inclusive index up to which the cache is valid; -1 = nothing cached). -/
structure IncrementalRibbon where
  minRadius : ℚ
  maxRadius : ℚ
  points : List Pt
  radii : List ℚ
  perpX : List ℚ
  perpY : List ℚ
  leftX : List ℚ
  leftY : List ℚ
  rightX : List ℚ
  rightY : List ℚ
  cacheValid : ℤ

def IncrementalRibbon.mk0 (minRadius maxRadius : ℚ) : IncrementalRibbon :=
  ⟨minRadius, maxRadius, [], [], [], [], [], [], [], [], -1⟩

/-- addPoint (lines 333–343): append and invalidate from `len - 2`. -/
def IncrementalRibbon.addPoint (s : IncrementalRibbon) (x y pressure : ℚ) :
    IncrementalRibbon :=
  let points := s.points ++ [⟨x, y, some pressure⟩]
  let len : ℤ := points.length
  let cacheValid := if len - 2 ≤ s.cacheValid then max (-1) (len - 3) else s.cacheValid
  { s with points := points, cacheValid := cacheValid }

/-- `while (this._radii.length < n) push(0)` (lines 357–365). -/
def growTo (l : List ℚ) (n : ℕ) : List ℚ := l ++ List.replicate (n - l.length) 0

/-- The perpendicular computed inside _updateCache's loop (lines 393–400):
like `perpAt`, except that the degenerate-tangent fallback reads the CACHED
previous perpendicular instead of recursing. -/
def entryPerp (f : MathFns) (s : IncrementalRibbon) (i : ℕ) : ℚ × ℚ :=
  let txy := tangentAt s.points i
  let len := hypotQ f txy.1 txy.2
  if len < 1/1000000 then
    if 0 < i then (s.perpX.getD (i - 1) 0, s.perpY.getD (i - 1) 0) else (0, 1)
  else (-txy.2 / len, txy.1 / len)

/-- The body of the `for (let i = start; i < n; i++)` loop of _updateCache
(lines 367–409): recompute entry `i` of every cached array. -/
def updateEntry (f : MathFns) (s : IncrementalRibbon) (i : ℕ) : IncrementalRibbon :=
  let pts := s.points
  let r := pressureRadius s.minRadius s.maxRadius (pts.getD i dummyPt)
  let pxy : ℚ × ℚ := entryPerp f s i
  { s with
    radii := s.radii.set i r
    perpX := s.perpX.set i pxy.1
    perpY := s.perpY.set i pxy.2
    leftX := s.leftX.set i ((pts.getD i dummyPt).x + pxy.1 * r)
    leftY := s.leftY.set i ((pts.getD i dummyPt).y + pxy.2 * r)
    rightX := s.rightX.set i ((pts.getD i dummyPt).x - pxy.1 * r)
    rightY := s.rightY.set i ((pts.getD i dummyPt).y - pxy.2 * r) }

/-- _updateCache (lines 349–412). -/
def IncrementalRibbon.updateCache (f : MathFns) (s : IncrementalRibbon) :
    IncrementalRibbon :=
  let n := s.points.length
  if n = 0 then s
  else
    let start := (s.cacheValid + 1).toNat
    let s1 := { s with
      radii := growTo s.radii n
      perpX := growTo s.perpX n
      perpY := growTo s.perpY n
      leftX := growTo s.leftX n
      leftY := growTo s.leftY n
      rightX := growTo s.rightX n
      rightY := growTo s.rightY n }
    let s2 := (List.range' start (n - start)).foldl (updateEntry f) s1
    { s2 with cacheValid := (n : ℤ) - 1 }

/-- getPath (lines 421–509): update the cache, then assemble the path from
the cached arrays; returns the updated state (the source mutates `this`)
and the path, which is marked volatile. -/
def IncrementalRibbon.getPath (f : MathFns) (s : IncrementalRibbon) :
    IncrementalRibbon × SkPathM :=
  let s := s.updateCache f
  let n := s.points.length
  if n = 0 then (s, ⟨[], false⟩)
  else if n = 1 then
    (s, ⟨[.addCircle (s.points.getD 0 dummyPt).x (s.points.getD 0 dummyPt).y
           (max (1/2) (s.radii.getD 0 0))], true⟩)
  else
    (s, ⟨assembleRibbon f s.points s.radii s.perpX s.perpY s.leftX s.leftY
           s.rightX s.rightY, true⟩)

def IncrementalRibbon.reset (s : IncrementalRibbon) : IncrementalRibbon :=
  mk0 s.minRadius s.maxRadius

/-- States reachable through the public API from a fresh ribbon (with
updateSettings never called, as in the claim's scenario: minRadius and
maxRadius fixed for the life of the ribbon). -/
inductive Reachable (f : MathFns) : IncrementalRibbon → Prop
  | init : ∀ minRadius maxRadius, Reachable f (IncrementalRibbon.mk0 minRadius maxRadius)
  | add : ∀ s x y p, Reachable f s → Reachable f (s.addPoint x y p)
  | path : ∀ s, Reachable f s → Reachable f (s.getPath f).1
  | res : ∀ s, Reachable f s → Reachable f s.reset

/-- Correctness of cached entry `i`: the seven arrays agree at `i` with the
formulas the batch builder buildRibbonPath uses over the current points. -/
def EntryGood (f : MathFns) (s : IncrementalRibbon) (i : ℕ) : Prop :=
  s.radii.getD i 0 = pressureRadius s.minRadius s.maxRadius (s.points.getD i dummyPt) ∧
  s.perpX.getD i 0 = (perpAt f s.points i).1 ∧
  s.perpY.getD i 0 = (perpAt f s.points i).2 ∧
  s.leftX.getD i 0 = (s.points.getD i dummyPt).x +
    (perpAt f s.points i).1 * pressureRadius s.minRadius s.maxRadius (s.points.getD i dummyPt) ∧
  s.leftY.getD i 0 = (s.points.getD i dummyPt).y +
    (perpAt f s.points i).2 * pressureRadius s.minRadius s.maxRadius (s.points.getD i dummyPt) ∧
  s.rightX.getD i 0 = (s.points.getD i dummyPt).x -
    (perpAt f s.points i).1 * pressureRadius s.minRadius s.maxRadius (s.points.getD i dummyPt) ∧
  s.rightY.getD i 0 = (s.points.getD i dummyPt).y -
    (perpAt f s.points i).2 * pressureRadius s.minRadius s.maxRadius (s.points.getD i dummyPt)

/-- The cache invariant maintained by the public API: the watermark never
exceeds the last index, the cached arrays never outgrow the point list, and
every entry at or below the watermark is correct. -/
def CacheInv (f : MathFns) (s : IncrementalRibbon) : Prop :=
  s.cacheValid ≤ (s.points.length : ℤ) - 1 ∧
  s.radii.length ≤ s.points.length ∧
  s.perpX.length ≤ s.points.length ∧
  s.perpY.length ≤ s.points.length ∧
  s.leftX.length ≤ s.points.length ∧
  s.leftY.length ≤ s.points.length ∧
  s.rightX.length ≤ s.points.length ∧
  s.rightY.length ≤ s.points.length ∧
  ∀ i : ℕ, (i : ℤ) ≤ s.cacheValid → EntryGood f s i

end Stroke

/-- A concrete two-point cached ribbon state reached through the public API. -/
def c2state : Stroke.IncrementalRibbon :=
  ((Stroke.IncrementalRibbon.mk0 1 3).addPoint 0 0 (1/2)).addPoint 4 0 (3/4)

-- ---------------------------------------------------------------------------
-- Eraser geometry (strokePath.ts second module, lines 845–986)
-- ---------------------------------------------------------------------------

/-- Squared distance between two points (`r2`). -/
def r2 (p q : Pt) : ℚ := (p.x - q.x) * (p.x - q.x) + (p.y - q.y) * (p.y - q.y)

/-- One segment of densifyEraserPath's loop (lines 856–868). -/
def densifySeg (f : MathFns) (step : ℚ) (out : List Pt) (a b : Pt) : List Pt :=
  let dx := b.x - a.x
  let dy := b.y - a.y
  let len := hypotQ f dx dy
  if len = 0 then out
  else
    let n := (max 1 (Int.ceil (len / step))).toNat
    out ++ (List.range n).map (fun k =>
      let t : ℚ := ((k : ℚ) + 1) / (n : ℚ)
      ⟨a.x + t * dx, a.y + t * dy, none⟩)

/-- densifyEraserPath (lines 852–870). -/
def densifyEraserPath (f : MathFns) (path : List Pt) (radius : ℚ) : List Pt :=
  if path.length ≤ 1 then path
  else
    let step := max 2 (radius * (2/5))
    (path.zip path.tail).foldl (fun out ab => densifySeg f step out ab.1 ab.2)
      [path.headD dummyPt]

/-- isPointErased (lines 872–878). -/
def isPointErased (p : Pt) (eraserPath : List Pt) (radius : ℚ) : Bool :=
  eraserPath.any (fun ep => decide (r2 p ep ≤ radius * radius))

/-- distToSegmentSq (lines 880–889). -/
def distToSegmentSq (p a b : Pt) : ℚ :=
  let dx := b.x - a.x
  let dy := b.y - a.y
  let len2 := dx * dx + dy * dy
  if len2 = 0 then r2 p a
  else
    let t := ((p.x - a.x) * dx + (p.y - a.y) * dy) / len2
    let t2 := max 0 (min 1 t)
    r2 p ⟨a.x + t2 * dx, a.y + t2 * dy, none⟩

/-- isSegmentTouchedByEraser (lines 891–902). -/
def isSegmentTouchedByEraser (p1 p2 : Pt) (eraserPath : List Pt) (radius : ℚ) : Bool :=
  eraserPath.any (fun ep => decide (distToSegmentSq ep p1 p2 ≤ radius * radius))

/-- segmentCircleExitT (lines 905–932): smallest `t ∈ [0,1]` at which the
segment a→b meets the circle of radius `r` around `center`. -/
def segmentCircleExitT (f : MathFns) (a b center : Pt) (r : ℚ) : Option ℚ :=
  let ux := a.x - center.x
  let uy := a.y - center.y
  let vx := b.x - a.x
  let vy := b.y - a.y
  let v2 := vx * vx + vy * vy
  let uv := ux * vx + uy * vy
  let u2 := ux * ux + uy * uy
  let rr := r * r
  let c := u2 - rr
  let b2 := 2 * uv
  if v2 = 0 then none
  else
    let disc := b2 * b2 - 4 * v2 * c
    if disc < 0 then none
    else
      let sq := f.sqrt disc
      let t1 := (-b2 - sq) / (2 * v2)
      let t2 := (-b2 + sq) / (2 * v2)
      let inRange : List ℚ :=
        (if 0 ≤ t1 ∧ t1 ≤ 1 then [t1] else []) ++
        (if 0 ≤ t2 ∧ t2 ≤ 1 ∧ t2 ≠ t1 then [t2] else [])
      match inRange with
      | [] => none
      | t :: ts => some (ts.foldl min t)

/-- The `bestT` fold of splitStrokeByEraser (lines 954–958): smallest
crossing parameter above 1e-6 over all densified eraser points. -/
def bestCutT (f : MathFns) (a b : Pt) (dense : List Pt) (radius : ℚ) : Option ℚ :=
  dense.foldl
    (fun bestT ep =>
      match segmentCircleExitT f a b ep radius with
      | none => bestT
      | some t =>
        match bestT with
        | none => if 1/1000000 < t then some t else none
        | some bb => if 1/1000000 < t ∧ t < bb then some t else some bb)
    none

/-- `splitAfter[i]` of splitStrokeByEraser (lines 951–953): true iff the
segment i→i+1 exists and is touched by the eraser. -/
def splitAfterAt (points dense : List Pt) (radius : ℚ) (i : ℕ) : Bool :=
  decide (i + 1 < points.length) &&
    isSegmentTouchedByEraser (points.getD i dummyPt) (points.getD (i + 1) dummyPt)
      dense radius

/-- `cutPointAfter[i]` of splitStrokeByEraser (lines 959–965): the
synthesized boundary point on segment i→i+1, inheriting the pressure of
the segment's start point. -/
def cutPointAfterAt (f : MathFns) (points dense : List Pt) (radius : ℚ) (i : ℕ) :
    Option Pt :=
  if splitAfterAt points dense radius i then
    match bestCutT f (points.getD i dummyPt) (points.getD (i + 1) dummyPt) dense radius with
    | some t =>
      some ⟨(points.getD i dummyPt).x + t * ((points.getD (i + 1) dummyPt).x - (points.getD i dummyPt).x),
            (points.getD i dummyPt).y + t * ((points.getD (i + 1) dummyPt).y - (points.getD i dummyPt).y),
            (points.getD i dummyPt).pressure⟩
    | none => none
  else none

/-- One iteration of the output-group scan of splitStrokeByEraser
(lines 969–983); state = (closed segments, current group). -/
def scanStep (f : MathFns) (points dense : List Pt) (radius : ℚ)
    (st : List (List Pt) × List Pt) (i : ℕ) : List (List Pt) × List Pt :=
  let segments := st.1
  let current := st.2
  if isPointErased (points.getD i dummyPt) dense radius then
    (if current = [] then segments else segments ++ [current], [])
  else
    let current := current ++ [points.getD i dummyPt]
    if splitAfterAt points dense radius i then
      let current := current ++ (cutPointAfterAt f points dense radius i).toList
      (if current = [] then segments else segments ++ [current], [])
    else (segments, current)

/-- splitStrokeByEraser (lines 938–986). -/
def splitStrokeByEraser (f : MathFns) (points eraserPath : List Pt) (radius : ℚ) :
    List (List Pt) :=
  if points.length = 0 then []
  else
    let dense := densifyEraserPath f eraserPath radius
    let st := (List.range points.length).foldl (scanStep f points dense radius) ([], [])
    if st.2 = [] then st.1 else st.1 ++ [st.2]

-- ---------------------------------------------------------------------------
-- Specification predicates for the eraser-splitter invariants (claim C10)
-- ---------------------------------------------------------------------------

/-- The contiguous slice points[lo .. lo+n). -/
def sliceOf (pts : List Pt) (lo n : ℕ) : List Pt := (pts.drop lo).take n

/-- The group the scan of splitStrokeByEraser emits for a maximal run of
kept points at indices [lo, lo+n): the slice itself plus, exactly when the
run was closed by a touched segment after its last index, the synthesized
cut point of that segment. -/
def closedGroup (f : MathFns) (points dense : List Pt) (radius : ℚ) (lo n : ℕ) :
    List Pt :=
  sliceOf points lo n ++
    (if splitAfterAt points dense radius (lo + n - 1) then
       (cutPointAfterAt f points dense radius (lo + n - 1)).toList
     else [])

/-- A valid run of kept input points: non-empty, in bounds, all kept. -/
def RunGood (points dense : List Pt) (radius : ℚ) (lo n : ℕ) : Prop :=
  0 < n ∧ lo + n ≤ points.length ∧
    ∀ k, lo ≤ k → k < lo + n →
      isPointErased (points.getD k dummyPt) dense radius = false

/-- The structural invariants of splitStrokeByEraser: every synthesized
cut point lies on its segment at a parameter 1e-6 < t ≤ 1 and inherits the
start point's pressure; and the output is a list of groups, one per run of
consecutive kept input points, in increasing index order, each group being
that contiguous run plus at most one trailing cut point. -/
def SplitOK (f : MathFns) (points eraserPath : List Pt) (radius : ℚ) : Prop :=
  (∀ i c,
    cutPointAfterAt f points (densifyEraserPath f eraserPath radius) radius i = some c →
    ∃ t : ℚ, 1/1000000 < t ∧ t ≤ 1 ∧
      c.x = (points.getD i dummyPt).x +
        t * ((points.getD (i + 1) dummyPt).x - (points.getD i dummyPt).x) ∧
      c.y = (points.getD i dummyPt).y +
        t * ((points.getD (i + 1) dummyPt).y - (points.getD i dummyPt).y) ∧
      c.pressure = (points.getD i dummyPt).pressure) ∧
  ∃ rs : List (ℕ × ℕ),
    (∀ pr ∈ rs, RunGood points (densifyEraserPath f eraserPath radius) radius pr.1 pr.2) ∧
    rs.Pairwise (fun a b => a.1 + a.2 ≤ b.1) ∧
    splitStrokeByEraser f points eraserPath radius =
      rs.map (fun pr =>
        closedGroup f points (densifyEraserPath f eraserPath radius) radius pr.1 pr.2)

-- ---------------------------------------------------------------------------
-- Generic list lemmas used throughout the verification
-- ---------------------------------------------------------------------------

theorem getD_append_left {α : Type} (l l' : List α) (i : ℕ) (d : α) (h : i < l.length) :
    (l ++ l').getD i d = l.getD i d := by
  induction l generalizing i with
  | nil => simp at h
  | cons a t ih =>
    cases i with
    | zero => rfl
    | succ j =>
      simp only [List.cons_append, List.getD_cons_succ]
      exact ih j (by simpa using h)

theorem getD_of_length_le {α : Type} (l : List α) (i : ℕ) (d : α) (h : l.length ≤ i) :
    l.getD i d = d := by
  induction l generalizing i with
  | nil => cases i <;> rfl
  | cons a t ih =>
    cases i with
    | zero => simp at h
    | succ j =>
      simp only [List.getD_cons_succ]
      exact ih j (by simpa using h)

theorem getD_set_ne {α : Type} (l : List α) (i j : ℕ) (a : α) (d : α) (h : i ≠ j) :
    (l.set i a).getD j d = l.getD j d := by
  induction l generalizing i j with
  | nil => rfl
  | cons b t ih =>
    cases i with
    | zero =>
      cases j with
      | zero => exact absurd rfl h
      | succ k => rfl
    | succ i' =>
      cases j with
      | zero => rfl
      | succ k =>
        simp only [List.set_cons_succ, List.getD_cons_succ]
        exact ih i' k (fun hh => h (by rw [hh]))

theorem getD_set_self {α : Type} (l : List α) (i : ℕ) (a : α) (d : α) (h : i < l.length) :
    (l.set i a).getD i d = a := by
  induction l generalizing i with
  | nil => simp at h
  | cons b t ih =>
    cases i with
    | zero => rfl
    | succ j =>
      simp only [List.set_cons_succ, List.getD_cons_succ]
      exact ih j (by simpa using h)

theorem list_eq_of_getD {α : Type} (d : α) (l l' : List α) (hlen : l.length = l'.length)
    (h : ∀ i, i < l.length → l.getD i d = l'.getD i d) : l = l' := by
  induction l generalizing l' with
  | nil => cases l' with
    | nil => rfl
    | cons b t => simp at hlen
  | cons a t ih =>
    cases l' with
    | nil => simp at hlen
    | cons b t' =>
      have h0 := h 0 (by simp)
      simp only [List.getD_cons_zero] at h0
      subst h0
      have := ih t' (by simpa using hlen)
        (fun i hi => by
          have := h (i + 1) (by simpa using Nat.succ_lt_succ hi)
          simpa using this)
      rw [this]

theorem getLast?_map_eq {α β : Type} (g : α → β) (l : List α) :
    (l.map g).getLast? = l.getLast?.map g := by
  induction l with
  | nil => rfl
  | cons a t ih =>
    cases t with
    | nil => rfl
    | cons b t' => simpa using ih

theorem getLastD_append_singleton {α : Type} (l : List α) (a d : α) :
    (l ++ [a]).getLastD d = a := by
  rw [List.getLastD_eq_getLast?, List.getLast?_concat]
  rfl

-- ---------------------------------------------------------------------------
-- C9: the raw buffer of the streamline IncrementalRibbon grows by exactly
-- one per addPoint, independent of smoothing
-- ---------------------------------------------------------------------------

theorem strokePathTs_addPoint_raw_length (s : StrokePathTs.IncrementalRibbon)
    (x y p : ℚ) : (s.addPoint x y p).rawPoints.length = s.rawPoints.length + 1 := by
  simp [StrokePathTs.IncrementalRibbon.addPoint]

theorem strokePathTs_pointCount_foldl (ops : List (ℚ × ℚ × ℚ))
    (s : StrokePathTs.IncrementalRibbon) :
    (ops.foldl (fun st q => st.addPoint q.1 q.2.1 q.2.2) s).pointCount =
      s.pointCount + ops.length := by
  induction ops generalizing s with
  | nil => simp
  | cons q rest ih =>
    simp only [List.foldl_cons, List.length_cons]
    rw [ih]
    simp only [StrokePathTs.IncrementalRibbon.pointCount,
      strokePathTs_addPoint_raw_length]
    omega

/-- Claim C9: for the streamline-based IncrementalRibbon in strokePath.ts,
pointCount equals exactly the number of addPoint calls since construction
or since the last reset (the raw buffer grows by exactly one element per
addPoint call even when the smoothed candidate is discarded, and reset
returns pointCount to zero). -/
theorem C9_pointCount :
    (∀ (minRadius maxRadius : ℚ) (ops : List (ℚ × ℚ × ℚ)),
      (ops.foldl (fun st q => st.addPoint q.1 q.2.1 q.2.2)
        (StrokePathTs.IncrementalRibbon.mk0 minRadius maxRadius)).pointCount = ops.length)
    ∧ (∀ (s : StrokePathTs.IncrementalRibbon) (x y p : ℚ),
      (s.addPoint x y p).rawPoints.length = s.rawPoints.length + 1)
    ∧ (∀ s : StrokePathTs.IncrementalRibbon, s.reset.pointCount = 0)
    ∧ (∀ (s : StrokePathTs.IncrementalRibbon) (ops : List (ℚ × ℚ × ℚ)),
      (ops.foldl (fun st q => st.addPoint q.1 q.2.1 q.2.2) s.reset).pointCount =
        ops.length) := by
  refine ⟨fun minR maxR ops => ?_, strokePathTs_addPoint_raw_length, fun s => rfl,
    fun s ops => ?_⟩
  · rw [strokePathTs_pointCount_foldl]
    simp [StrokePathTs.IncrementalRibbon.pointCount, StrokePathTs.IncrementalRibbon.mk0]
  · rw [strokePathTs_pointCount_foldl]
    simp [StrokePathTs.IncrementalRibbon.pointCount, StrokePathTs.IncrementalRibbon.reset]

-- ---------------------------------------------------------------------------
-- Lemmas about the streamline phase and the StrokePoint-building phase
-- ---------------------------------------------------------------------------

theorem smoothStep_cases (o : StrokePathOptions) (acc : List SmPt) (r : Pt) (b : Bool) :
    smoothStep o acc r b = acc ∨ ∃ q, smoothStep o acc r b = acc ++ [q] := by
  unfold smoothStep
  cases h : acc.getLast? with
  | none => exact Or.inl rfl
  | some prev =>
    dsimp only
    split
    all_goals
      split
      · exact Or.inl rfl
      · exact Or.inr ⟨_, rfl⟩

theorem smoothGo_prefix (o : StrokePathOptions) (rest : List Pt) :
    ∀ acc, ∃ tl, smoothGo o acc rest = acc ++ tl := by
  induction rest with
  | nil => exact fun acc => ⟨[], by simp [smoothGo]⟩
  | cons r rs ih =>
    intro acc
    rcases smoothStep_cases o acc r rs.isEmpty with h | ⟨q, h⟩
    · rcases ih (smoothStep o acc r rs.isEmpty) with ⟨tl, htl⟩
      exact ⟨tl, by rw [smoothGo, htl, h]⟩
    · rcases ih (smoothStep o acc r rs.isEmpty) with ⟨tl, htl⟩
      exact ⟨[q] ++ tl, by rw [smoothGo, htl, h, List.append_assoc]⟩

theorem smoothStep_congr_last (o o' : StrokePathOptions) (acc : List SmPt) (r : Pt)
    (b b' : Bool) (h : (o.last && b) = false) (h' : (o'.last && b') = false)
    (hstream : o.streamline = o'.streamline) :
    smoothStep o acc r b = smoothStep o' acc r b' := by
  unfold smoothStep
  cases acc.getLast? with
  | none => rfl
  | some prev => simp only [h, h', streamT, hstream, Bool.false_eq_true, if_false]

theorem smoothGo_concat (o : StrokePathOptions) (q : Pt) (rs : List Pt) :
    ∀ acc, smoothGo o acc (rs ++ [q]) =
      smoothStep o (smoothGo { o with last := false } acc rs) q true := by
  induction rs with
  | nil => intro acc; rfl
  | cons r rs ih =>
    intro acc
    have hstep : smoothStep o acc r (rs ++ [q]).isEmpty =
        smoothStep { o with last := false } acc r rs.isEmpty := by
      apply smoothStep_congr_last
      · simp
      · simp
      · rfl
    calc smoothGo o acc ((r :: rs) ++ [q])
        = smoothGo o (smoothStep o acc r (rs ++ [q]).isEmpty) (rs ++ [q]) := rfl
      _ = smoothStep o (smoothGo { o with last := false }
            (smoothStep o acc r (rs ++ [q]).isEmpty) rs) q true := ih _
      _ = smoothStep o (smoothGo { o with last := false }
            (smoothStep { o with last := false } acc r rs.isEmpty) rs) q true := by
            rw [hstep]
      _ = _ := rfl

theorem smoothStep_forced (o : StrokePathOptions) (acc : List SmPt) (q : Pt) (prev : SmPt)
    (hlast : o.last = true) (hprev : acc.getLast? = some prev)
    (hmove : 1/100 ≤ (q.x - prev.x) * (q.x - prev.x) + (q.y - prev.y) * (q.y - prev.y)) :
    smoothStep o acc q true = acc ++ [⟨q.x, q.y, q.pressure.getD (1/2)⟩] := by
  unfold smoothStep
  rw [hprev]
  simp only [hlast, Bool.and_self, if_true]
  rw [if_neg (by exact not_lt.mpr hmove)]

theorem buildGo_map_pos (f : MathFns) (o : StrokePathOptions) :
    ∀ (sm : List SmPt) (prevOpt : Option SmPt) (rl pp : ℚ),
      (buildStrokePointsGo f o sm prevOpt rl pp).map (fun s => (s.x, s.y)) =
        sm.map (fun s => (s.x, s.y)) := by
  intro sm
  induction sm with
  | nil => intro _ _ _; rfl
  | cons pt rest ih =>
    intro prevOpt rl pp
    simp only [buildStrokePointsGo, List.map_cons]
    exact congrArg _ (ih _ _ _)

theorem fixFirstVec_map_pos (l : List StrokePoint) :
    (fixFirstVec l).map (fun s => (s.x, s.y)) = l.map (fun s => (s.x, s.y)) := by
  match l with
  | [] => rfl
  | [p] => rfl
  | p0 :: p1 :: rest => rfl

theorem processPoints_map_pos (f : MathFns) (o : StrokePathOptions) (r0 : Pt)
    (rest : List Pt) :
    (processPoints f o (r0 :: rest)).map (fun s => (s.x, s.y)) =
      (padSmoothed (smoothPhase o (r0 :: rest))).map (fun s => (s.x, s.y)) := by
  simp only [processPoints, smoothPhase]
  rw [fixFirstVec_map_pos, buildGo_map_pos]

-- ---------------------------------------------------------------------------
-- C5: zero input points give empty output; ONE input point gives a
-- TWO-point output (the original plus a (+1,+1) offset copy), not the
-- single-point output the spec states
-- ---------------------------------------------------------------------------

/-- Claim C5, counterexample: the Point Processor maps a one-point input
to a two-point output (the `smoothed.length === 1` branch of processPoints
appends a (+1,+1) offset copy), so the spec's "single-point output" is
wrong. -/
theorem C5_counterexample :
    (processPoints ratFns DEFAULT_OPTIONS [⟨0, 0, some (1/2)⟩]).length = 2 ∧
      (2 : ℕ) ≠ 1 := by
  constructor
  · decide
  · decide

/-- Claim C5 (amended): the Point Processor maps zero input points to an
empty output, and maps exactly one input point to a TWO-point output whose
positions are the input point and the input point offset by (+1, +1) (the
downstream Path Assembler then special-cases this into a dot because the
synthetic second point is closer than the end-noise threshold). -/
theorem C5_point_processor_edge :
    (∀ (f : MathFns) (o : StrokePathOptions), processPoints f o [] = [])
    ∧ (∀ (f : MathFns) (o : StrokePathOptions) (p : Pt),
        (processPoints f o [p]).map (fun q => (q.x, q.y)) =
          [(p.x, p.y), (p.x + 1, p.y + 1)]) := by
  constructor
  · intro f o; rfl
  · intro f o p
    rw [processPoints_map_pos]
    rfl

-- ---------------------------------------------------------------------------
-- C6: the `last = true` exact-final-point rule and its interaction with
-- degenerate-segment suppression
-- ---------------------------------------------------------------------------

theorem getLast?_of_ne_nil {α : Type} (l : List α) (d : α) (h : l ≠ []) :
    l.getLast? = some (l.getLastD d) := by
  obtain ⟨x, hx⟩ := Option.isSome_iff_exists.1 (List.getLast?_isSome.2 h)
  rw [List.getLastD_eq_getLast?, hx]
  rfl

theorem padSmoothed_eq_self (l : List SmPt) (h : l.length ≠ 1) : padSmoothed l = l := by
  match l with
  | [] => rfl
  | [p] => simp at h
  | a :: b :: t => rfl

/-- Claim C6, counterexample: with `last = true` and raw input
[(0,0), (0.05,0)], the forced final point moves less than the minimum
squared distance from the previous smoothed point, is discarded, and the
single-point fallback appends (+1,+1); so the final output point is (1,1),
not the final raw sample (0.05, 0). -/
theorem C6_counterexample :
    (((processPoints ratFns { DEFAULT_OPTIONS with last := true }
        [⟨0, 0, some (1/2)⟩, ⟨1/20, 0, some (1/2)⟩]).getLastD dummyStrokePoint).x,
     ((processPoints ratFns { DEFAULT_OPTIONS with last := true }
        [⟨0, 0, some (1/2)⟩, ⟨1/20, 0, some (1/2)⟩]).getLastD dummyStrokePoint).y) =
      ((1 : ℚ), (1 : ℚ)) ∧
    ((1 : ℚ), (1 : ℚ)) ≠ ((1/20 : ℚ), (0 : ℚ)) := by
  constructor
  · with_unfolding_all decide
  · with_unfolding_all decide

/-- Claim C6 (amended): when the stroke is complete (`last = true`) and the
raw input has at least two points, the final output point of the Point
Processor equals the final raw sample exactly PROVIDED the forced final
point moves at least the minimum squared distance (0.01) away from the
last smoothed point of the preceding samples; otherwise the final
candidate is discarded by the degenerate-segment suppression (see the
counterexample). -/
theorem C6_last_point_exact (f : MathFns) (o : StrokePathOptions) (r0 q : Pt)
    (mid : List Pt) (hlast : o.last = true)
    (hmove : 1/100 ≤
      (q.x - ((smoothPhase { o with last := false } (r0 :: mid)).getLastD dummySmPt).x) *
        (q.x - ((smoothPhase { o with last := false } (r0 :: mid)).getLastD dummySmPt).x) +
      (q.y - ((smoothPhase { o with last := false } (r0 :: mid)).getLastD dummySmPt).y) *
        (q.y - ((smoothPhase { o with last := false } (r0 :: mid)).getLastD dummySmPt).y)) :
    ((processPoints f o ((r0 :: mid) ++ [q])).getLastD dummyStrokePoint).x = q.x ∧
    ((processPoints f o ((r0 :: mid) ++ [q])).getLastD dummyStrokePoint).y = q.y := by
  set o' : StrokePathOptions := { o with last := false } with ho'
  set pre : List SmPt := smoothPhase o' (r0 :: mid) with hpre
  set qq : SmPt := ⟨q.x, q.y, q.pressure.getD (1/2)⟩ with hqq
  have hprene : pre ≠ [] := by
    rw [hpre]
    simp only [smoothPhase]
    obtain ⟨tl, htl⟩ := smoothGo_prefix o' mid [⟨r0.x, r0.y, r0.pressure.getD (1/2)⟩]
    rw [htl]
    simp
  have hsm : smoothPhase o (r0 :: (mid ++ [q])) = pre ++ [qq] := by
    simp only [smoothPhase]
    rw [smoothGo_concat]
    have : smoothGo o' [⟨r0.x, r0.y, r0.pressure.getD (1/2)⟩] mid = pre := rfl
    rw [this]
    exact smoothStep_forced o pre q (pre.getLastD dummySmPt) hlast
      (getLast?_of_ne_nil pre dummySmPt hprene) hmove
  have hpad : padSmoothed (smoothPhase o (r0 :: (mid ++ [q]))) = pre ++ [qq] := by
    rw [hsm]
    apply padSmoothed_eq_self
    rcases List.exists_cons_of_ne_nil hprene with ⟨a, t, hat⟩
    rw [hat]
    simp
  have hmap : (processPoints f o (r0 :: (mid ++ [q]))).map (fun s => (s.x, s.y)) =
      (pre ++ [qq]).map (fun s => (s.x, s.y)) := by
    rw [processPoints_map_pos, hpad]
  have h1 : ((processPoints f o (r0 :: (mid ++ [q]))).map (fun s => (s.x, s.y))).getLast? =
      some (q.x, q.y) := by
    rw [hmap, List.map_append]
    simp [List.getLast?_concat, hqq]
  rw [getLast?_map_eq] at h1
  obtain ⟨sp, hsp, hspv⟩ := Option.map_eq_some'.1 h1
  have hD : (processPoints f o ((r0 :: mid) ++ [q])).getLastD dummyStrokePoint = sp := by
    have : (r0 :: mid) ++ [q] = r0 :: (mid ++ [q]) := by simp
    rw [this, List.getLastD_eq_getLast?, hsp]
    rfl
  rw [hD]
  have hx := congrArg Prod.fst hspv
  have hy := congrArg Prod.snd hspv
  exact ⟨hx, hy⟩

/-- Witness for C6: a concrete completed two-point stroke whose final raw
sample is far from the previous smoothed point; the final processed point
is exactly that raw sample. -/
theorem C6_last_point_exact_witness :
    ((processPoints ratFns { DEFAULT_OPTIONS with last := true }
        ([⟨0, 0, some (1/2)⟩] ++ [⟨10, 0, some (1/2)⟩])).getLastD dummyStrokePoint).x =
      (10 : ℚ) ∧
    ((processPoints ratFns { DEFAULT_OPTIONS with last := true }
        ([⟨0, 0, some (1/2)⟩] ++ [⟨10, 0, some (1/2)⟩])).getLastD dummyStrokePoint).y =
      (0 : ℚ) :=
  C6_last_point_exact ratFns { DEFAULT_OPTIONS with last := true }
    ⟨0, 0, some (1/2)⟩ ⟨10, 0, some (1/2)⟩ [] rfl (by with_unfolding_all decide)

-- ---------------------------------------------------------------------------
-- C7: taper monotonicity
-- ---------------------------------------------------------------------------

/-- Claim C7, counterexample: the taper-adjusted outline radius is NOT
monotone in runningLength for every processed point sequence: with an
active start taper of 10 and the default easings, a point at
runningLength 2 with base radius 10 gets adjusted radius 18/5, while the
next point at runningLength 4 (still inside the start taper zone, outside
the end zone) with base radius 1 gets 16/25 < 18/5.  Per-point
pressure-derived radii can decrease faster than the taper factor grows. -/
theorem C7_counterexample :
    taperedRadius easeOutQuad easeInCubic 10 0 100 2 10 = 18/5 ∧
    taperedRadius easeOutQuad easeInCubic 10 0 100 4 1 = 16/25 ∧
    (16/25 : ℚ) < 18/5 ∧ (2 : ℚ) < 4 ∧ (4 : ℚ) < 10 := by
  refine ⟨?_, ?_, ?_, ?_, ?_⟩ <;> with_unfolding_all decide

/-- Claim C7 (amended): for points with EQUAL base (pressure-derived)
radius, the taper-adjusted radius computed by the Outline Builder is
non-decreasing in runningLength inside the start taper zone (points
outside the end taper zone, with the easing non-decreasing between the two
sampled arguments), and symmetrically non-increasing toward the end inside
the end taper zone. -/
theorem C7_taper_monotone :
    (∀ (se ee : ℚ → ℚ) (ts te total rl1 rl2 r : ℚ),
      0 ≤ r → 0 < ts → rl1 ≤ rl2 → rl2 < ts →
      te ≤ total - rl2 → te ≤ total - rl1 →
      se (rl1 / ts) ≤ se (rl2 / ts) →
      taperedRadius se ee ts te total rl1 r ≤ taperedRadius se ee ts te total rl2 r)
    ∧ (∀ (se ee : ℚ → ℚ) (ts te total rl1 rl2 r : ℚ),
      0 ≤ r → 0 < te → rl1 ≤ rl2 →
      total - rl1 < te → total - rl2 < te →
      ts ≤ rl1 → ts ≤ rl2 →
      ee ((total - rl2) / te) ≤ ee ((total - rl1) / te) →
      taperedRadius se ee ts te total rl2 r ≤ taperedRadius se ee ts te total rl1 r) := by
  constructor
  · intro se ee ts te total rl1 rl2 r hr hts h12 h2 hte2 hte1 hease
    unfold taperedRadius
    rw [if_pos (lt_of_le_of_lt h12 h2), if_pos h2,
      if_neg (not_lt.mpr hte1), if_neg (not_lt.mpr hte2)]
    exact max_le_max le_rfl
      (mul_le_mul_of_nonneg_left (min_le_min hease le_rfl) hr)
  · intro se ee ts te total rl1 rl2 r hr hte h12 h1 h2 hts1 hts2 hease
    unfold taperedRadius
    rw [if_neg (not_lt.mpr hts1), if_neg (not_lt.mpr hts2), if_pos h1, if_pos h2]
    exact max_le_max le_rfl
      (mul_le_mul_of_nonneg_left (min_le_min le_rfl hease) hr)

/-- Witness for C7: concrete points at runningLength 2 and 4 inside the
start taper zone with equal base radius 10 and the default start easing. -/
theorem C7_taper_monotone_witness :
    taperedRadius easeOutQuad easeInCubic 10 0 100 2 10 ≤
      taperedRadius easeOutQuad easeInCubic 10 0 100 4 10 :=
  C7_taper_monotone.1 easeOutQuad easeInCubic 10 0 100 2 4 10
    (by norm_num) (by norm_num) (by norm_num) (by norm_num)
    (by norm_num) (by norm_num) (by with_unfolding_all decide)

-- ---------------------------------------------------------------------------
-- C3: the concrete eraser split scenario
-- ---------------------------------------------------------------------------

/-- Claim C3, counterexample: splitStrokeByEraser on stroke
[(0,0),(10,0)], eraser [(5,0)], radius 3 returns [[(0,0),(2,0)], [(10,0)]]
— the second group is a SINGLE point, with no synthesized cut point near
(8,0): the code only synthesizes the EARLIEST circle crossing of a touched
segment, never the exit crossing, so the claimed shape (two groups of two
points) is wrong. -/
theorem C3_counterexample :
    splitStrokeByEraser ratFns [⟨0, 0, none⟩, ⟨10, 0, none⟩] [⟨5, 0, none⟩] 3 =
      [[⟨0, 0, none⟩, ⟨2, 0, none⟩], [⟨10, 0, none⟩]] ∧
    (splitStrokeByEraser ratFns [⟨0, 0, none⟩, ⟨10, 0, none⟩] [⟨5, 0, none⟩] 3).map
        List.length ≠ [2, 2] := by
  constructor
  · decide!
  · decide!

/-- Claim C3 (amended): splitStrokeByEraser applied to stroke points
[(0,0),(10,0)], eraser path [(5,0)] and radius 3 returns exactly two
groups: [(0,0), (2,0)] — the first boundary crossing t = 0.2 of the single
segment — and [(10,0)] alone; no second cut point is synthesized at the
exit crossing (8,0). -/
theorem C3_eraser_scenario :
    splitStrokeByEraser ratFns [⟨0, 0, none⟩, ⟨10, 0, none⟩] [⟨5, 0, none⟩] 3 =
      [[⟨0, 0, none⟩, ⟨2, 0, none⟩], [⟨10, 0, none⟩]] := by
  decide!

-- ---------------------------------------------------------------------------
-- C4: eraser that never touches the stroke
-- ---------------------------------------------------------------------------

theorem getD_mem {α : Type} (l : List α) (i : ℕ) (d : α) (h : i < l.length) :
    l.getD i d ∈ l := by
  induction l generalizing i with
  | nil => simp at h
  | cons a t ih =>
    cases i with
    | zero => exact List.mem_cons_self a t
    | succ j =>
      simp only [List.getD_cons_succ]
      exact List.mem_cons_of_mem a (ih j (by simpa using h))

theorem take_succ_getD {α : Type} (l : List α) (j : ℕ) (d : α) (h : j < l.length) :
    l.take (j + 1) = l.take j ++ [l.getD j d] := by
  induction l generalizing j with
  | nil => simp at h
  | cons a t ih =>
    cases j with
    | zero => simp
    | succ k =>
      simp only [List.take_succ_cons, List.getD_cons_succ, List.cons_append]
      rw [← ih k (by simpa using h)]

/-- Claim C4, counterexample: the eraser point (5,2) with radius 5/2 is
farther than the radius from BOTH stroke points of [(0,0),(10,0)] (the
claim's hypothesis holds), yet the segment between them passes within the
radius, so splitStrokeByEraser returns TWO groups, not one group equal to
the input. -/
theorem C4_counterexample :
    isPointErased ⟨0, 0, none⟩ (densifyEraserPath ratFns [⟨5, 2, none⟩] (5/2)) (5/2) =
        false ∧
    isPointErased ⟨10, 0, none⟩ (densifyEraserPath ratFns [⟨5, 2, none⟩] (5/2)) (5/2) =
        false ∧
    splitStrokeByEraser ratFns [⟨0, 0, none⟩, ⟨10, 0, none⟩] [⟨5, 2, none⟩] (5/2) =
      [[⟨0, 0, none⟩, ⟨7/2, 0, none⟩], [⟨10, 0, none⟩]] ∧
    splitStrokeByEraser ratFns [⟨0, 0, none⟩, ⟨10, 0, none⟩] [⟨5, 2, none⟩] (5/2) ≠
      [[⟨0, 0, none⟩, ⟨10, 0, none⟩]] := by
  refine ⟨?_, ?_, ?_, ?_⟩ <;> decide!

theorem scanStep_all_kept (f : MathFns) (pts dense : List Pt) (radius : ℚ)
    (hker : ∀ p ∈ pts, isPointErased p dense radius = false)
    (hseg : ∀ i ∈ List.range (pts.length - 1),
      isSegmentTouchedByEraser (pts.getD i dummyPt) (pts.getD (i + 1) dummyPt)
        dense radius = false) :
    ∀ j, j ≤ pts.length →
      (List.range j).foldl (scanStep f pts dense radius) ([], []) = ([], pts.take j) := by
  intro j
  induction j with
  | zero => intro _; simp
  | succ k ih =>
    intro hk
    have hklt : k < pts.length := Nat.lt_of_succ_le hk
    rw [List.range_succ, List.foldl_append, ih (Nat.le_of_lt hklt)]
    simp only [List.foldl_cons, List.foldl_nil]
    unfold scanStep
    rw [hker (pts.getD k dummyPt) (getD_mem pts k dummyPt hklt)]
    have hsa : splitAfterAt pts dense radius k = false := by
      unfold splitAfterAt
      by_cases hb : k + 1 < pts.length
      · rw [hseg k (List.mem_range.mpr (by omega))]
        simp
      · simp [hb]
    rw [hsa]
    simp only [Bool.false_eq_true, if_false]
    rw [← take_succ_getD pts k dummyPt hklt]

/-- Claim C4 (amended): if no stroke point is within the radius of any
densified eraser point AND no segment between consecutive stroke points
passes within the radius of any densified eraser point, then
splitStrokeByEraser returns exactly one group equal to the input (the
point-wise hypothesis of the claim alone is not enough: a segment can be
touched even when both endpoints are kept — see the counterexample). -/
theorem C4_untouched_single_group (f : MathFns) (points eraserPath : List Pt) (radius : ℚ)
    (hne : points ≠ [])
    (hker : ∀ p ∈ points,
      isPointErased p (densifyEraserPath f eraserPath radius) radius = false)
    (hseg : ∀ i ∈ List.range (points.length - 1),
      isSegmentTouchedByEraser (points.getD i dummyPt) (points.getD (i + 1) dummyPt)
        (densifyEraserPath f eraserPath radius) radius = false) :
    splitStrokeByEraser f points eraserPath radius = [points] := by
  unfold splitStrokeByEraser
  rw [if_neg (by simpa using fun h => hne (List.length_eq_zero.mp h))]
  have h := scanStep_all_kept f points (densifyEraserPath f eraserPath radius) radius
    hker hseg points.length le_rfl
  dsimp only
  rw [h]
  simp only [List.take_length]
  rw [if_neg hne]
  rfl

/-- Witness for C4: a one-point stroke and an empty eraser path. -/
theorem C4_untouched_single_group_witness :
    splitStrokeByEraser ratFns [⟨0, 0, none⟩] [] 1 = [[⟨0, 0, none⟩]] :=
  C4_untouched_single_group ratFns [⟨0, 0, none⟩] [] 1 (by decide)
    (by with_unfolding_all decide) (by with_unfolding_all decide)

-- ---------------------------------------------------------------------------
-- C1: the streamline IncrementalRibbon versus the batch pipeline
-- ---------------------------------------------------------------------------

theorem smoothStep_congr (o o' : StrokePathOptions) (h1 : o.last = o'.last)
    (h2 : o.streamline = o'.streamline) (acc : List SmPt) (r : Pt) (b : Bool) :
    smoothStep o acc r b = smoothStep o' acc r b := by
  unfold smoothStep
  cases acc.getLast? with
  | none => rfl
  | some prev => simp only [streamT, h1, h2]

theorem smoothGo_congr (o o' : StrokePathOptions) (h1 : o.last = o'.last)
    (h2 : o.streamline = o'.streamline) (l : List Pt) :
    ∀ acc, smoothGo o acc l = smoothGo o' acc l := by
  induction l with
  | nil => intro acc; rfl
  | cons r rs ih =>
    intro acc
    show smoothGo o (smoothStep o acc r rs.isEmpty) rs =
      smoothGo o' (smoothStep o' acc r rs.isEmpty) rs
    rw [smoothStep_congr o o' h1 h2 acc r rs.isEmpty]
    exact ih _

theorem getLastD_map_of_ne_nil {α β : Type} (g : α → β) (l : List α) (h : l ≠ [])
    (d : β) (d' : α) : (l.map g).getLastD d = g (l.getLastD d') := by
  obtain ⟨x, hx⟩ := Option.isSome_iff_exists.1 (List.getLast?_isSome.2 h)
  rw [List.getLastD_eq_getLast?, List.getLastD_eq_getLast?, getLast?_map_eq, hx]
  rfl

theorem smoothPhase_ne_nil (o : StrokePathOptions) (r0 : Pt) (rest : List Pt) :
    smoothPhase o (r0 :: rest) ≠ [] := by
  simp only [smoothPhase]
  obtain ⟨tl, htl⟩ := smoothGo_prefix o rest [⟨r0.x, r0.y, r0.pressure.getD (1/2)⟩]
  rw [htl]
  simp

/-- One addPoint of the streamline IncrementalRibbon extends the smoothed
buffer exactly as one step of the batch streamline phase does. -/
theorem addPoint_smoothed_step (s : StrokePathTs.IncrementalRibbon) (x y p : ℚ)
    (hlast : s.opts.last = false)
    (hsm : s.smoothedPoints =
      (smoothPhase s.opts s.rawPoints).map (fun q => (⟨q.x, q.y, some q.pressure⟩ : Pt))) :
    (s.addPoint x y p).smoothedPoints =
      (smoothPhase s.opts (s.rawPoints ++ [⟨x, y, some p⟩])).map
        (fun q => (⟨q.x, q.y, some q.pressure⟩ : Pt)) := by
  cases hraw : s.rawPoints with
  | nil =>
    rw [hraw] at hsm
    have hsmnil : s.smoothedPoints = [] := by simpa using hsm
    simp only [StrokePathTs.IncrementalRibbon.addPoint, hsmnil]
    rfl
  | cons r0 rest =>
    rw [hraw] at hsm
    have hsm2 : smoothPhase s.opts ((r0 :: rest) ++ [(⟨x, y, some p⟩ : Pt)]) =
        smoothStep s.opts (smoothPhase s.opts (r0 :: rest)) ⟨x, y, some p⟩ true := by
      show smoothGo s.opts [⟨r0.x, r0.y, r0.pressure.getD (1/2)⟩]
          (rest ++ [(⟨x, y, some p⟩ : Pt)]) = _
      rw [smoothGo_concat]
      rw [smoothGo_congr { s.opts with last := false } s.opts (by simp [hlast]) rfl]
      rfl
    set sm := smoothPhase s.opts (r0 :: rest) with hsmdef
    have hne : sm ≠ [] := smoothPhase_ne_nil s.opts r0 rest
    have hlen : ¬ s.smoothedPoints.length = 0 := by
      rw [hsm]
      simp only [List.length_map]
      exact fun hh => hne (List.length_eq_zero.mp hh)
    set prevSm := sm.getLastD dummySmPt with hprev
    have hgl : sm.getLast? = some prevSm := getLast?_of_ne_nil sm dummySmPt hne
    have hprevmap : s.smoothedPoints.getLastD dummyPt =
        ⟨prevSm.x, prevSm.y, some prevSm.pressure⟩ := by
      rw [hsm]
      exact getLastD_map_of_ne_nil _ sm hne dummyPt dummySmPt
    have hstep : smoothStep s.opts sm ⟨x, y, some p⟩ true =
        (if (prevSm.x + (x - prevSm.x) * streamT s.opts - prevSm.x) *
              (prevSm.x + (x - prevSm.x) * streamT s.opts - prevSm.x) +
            (prevSm.y + (y - prevSm.y) * streamT s.opts - prevSm.y) *
              (prevSm.y + (y - prevSm.y) * streamT s.opts - prevSm.y) < 1/100 then sm
         else sm ++ [⟨prevSm.x + (x - prevSm.x) * streamT s.opts,
            prevSm.y + (y - prevSm.y) * streamT s.opts, p⟩]) := by
      unfold smoothStep
      rw [hgl]
      simp only [hlast, Bool.false_and, Bool.false_eq_true, if_false]
      rfl
    rw [hsm2, hstep]
    simp only [StrokePathTs.IncrementalRibbon.addPoint, if_neg hlen, hprevmap]
    have hT : MIN_STREAMLINE_T + (1 - s.opts.streamline) * STREAMLINE_T_RANGE =
        streamT s.opts := rfl
    rw [hT]
    by_cases hc : (prevSm.x + (x - prevSm.x) * streamT s.opts - prevSm.x) *
          (prevSm.x + (x - prevSm.x) * streamT s.opts - prevSm.x) +
        (prevSm.y + (y - prevSm.y) * streamT s.opts - prevSm.y) *
          (prevSm.y + (y - prevSm.y) * streamT s.opts - prevSm.y) < 1/100
    · rw [if_pos hc, if_neg (by exact fun hh => absurd hc (not_lt.mpr hh)), hsm]
    · rw [if_neg hc, if_pos (not_lt.mp hc), hsm, List.map_append]
      rfl

theorem getPathSP_cmds (f : MathFns) (s : StrokePathTs.IncrementalRibbon) :
    (s.getPath f).cmds = (buildStrokePath f s.opts s.smoothedPoints).cmds := by
  unfold StrokePathTs.IncrementalRibbon.getPath buildStrokePath
  by_cases h0 : s.smoothedPoints.length = 0
  · rw [if_pos h0, if_pos h0]
  · rw [if_neg h0, if_neg h0]
    dsimp only
    by_cases h1 : (processPoints f s.opts s.smoothedPoints).length = 0
    · rw [if_pos h1, if_pos h1]
    · rw [if_neg h1, if_neg h1]

/-- Claim C1, counterexample: feeding (0,0,0.5) and (10,0,0.5) into the
strokePath.ts IncrementalRibbon (minRadius = maxRadius = 5) and calling
getPath() does NOT reproduce the batch pipeline over the same two raw
points with the same options: getPath() re-runs processPoints — including
its streamline pass — on the ALREADY-smoothed buffer, so the raw points
are streamlined twice (the left rail ends at x = 1089/250 = 4.356 instead
of the batch 33/5 = 6.6). -/
theorem C1_counterexample :
    ((((StrokePathTs.IncrementalRibbon.mk0 5 5).addPoint 0 0 (1/2)).addPoint 10 0
        (1/2)).getPath ratFns).cmds ≠
      (buildStrokePath ratFns (StrokePathTs.ribbonOpts 5 5)
        [⟨0, 0, some (1/2)⟩, ⟨10, 0, some (1/2)⟩]).cmds := by
  decide!

/-- Claim C1 (amended): for every prefix of addPoint calls, getPath() of
the streamline IncrementalRibbon equals (up to the volatility hint) the
batch pipeline applied to the ribbon's incrementally smoothed buffer — and
that buffer is exactly ONE batch streamline pass over the raw prefix.
Equality with the batch pipeline over the raw prefix itself fails, because
the batch pipeline then applies its own streamline pass on top of the
incremental one (see the counterexample). -/
theorem C1_incremental_vs_batch (f : MathFns) (minRadius maxRadius : ℚ)
    (ops : List (ℚ × ℚ × ℚ)) :
    (ops.foldl (fun st q => st.addPoint q.1 q.2.1 q.2.2)
        (StrokePathTs.IncrementalRibbon.mk0 minRadius maxRadius)).rawPoints =
      ops.map (fun q => (⟨q.1, q.2.1, some q.2.2⟩ : Pt)) ∧
    (ops.foldl (fun st q => st.addPoint q.1 q.2.1 q.2.2)
        (StrokePathTs.IncrementalRibbon.mk0 minRadius maxRadius)).smoothedPoints =
      (smoothPhase (StrokePathTs.ribbonOpts minRadius maxRadius)
        ((ops.foldl (fun st q => st.addPoint q.1 q.2.1 q.2.2)
          (StrokePathTs.IncrementalRibbon.mk0 minRadius maxRadius)).rawPoints)).map
        (fun q => (⟨q.x, q.y, some q.pressure⟩ : Pt)) ∧
    ((ops.foldl (fun st q => st.addPoint q.1 q.2.1 q.2.2)
        (StrokePathTs.IncrementalRibbon.mk0 minRadius maxRadius)).getPath f).cmds =
      (buildStrokePath f (StrokePathTs.ribbonOpts minRadius maxRadius)
        ((ops.foldl (fun st q => st.addPoint q.1 q.2.1 q.2.2)
          (StrokePathTs.IncrementalRibbon.mk0 minRadius maxRadius)).smoothedPoints)).cmds := by
  have key : ∀ ops2 : List (ℚ × ℚ × ℚ),
      (ops2.foldl (fun st q => st.addPoint q.1 q.2.1 q.2.2)
        (StrokePathTs.IncrementalRibbon.mk0 minRadius maxRadius)).opts =
          StrokePathTs.ribbonOpts minRadius maxRadius ∧
      (ops2.foldl (fun st q => st.addPoint q.1 q.2.1 q.2.2)
        (StrokePathTs.IncrementalRibbon.mk0 minRadius maxRadius)).rawPoints =
          ops2.map (fun q => (⟨q.1, q.2.1, some q.2.2⟩ : Pt)) ∧
      (ops2.foldl (fun st q => st.addPoint q.1 q.2.1 q.2.2)
        (StrokePathTs.IncrementalRibbon.mk0 minRadius maxRadius)).smoothedPoints =
        (smoothPhase (StrokePathTs.ribbonOpts minRadius maxRadius)
          ((ops2.foldl (fun st q => st.addPoint q.1 q.2.1 q.2.2)
            (StrokePathTs.IncrementalRibbon.mk0 minRadius maxRadius)).rawPoints)).map
          (fun q => (⟨q.x, q.y, some q.pressure⟩ : Pt)) := by
    intro ops2
    induction ops2 using List.reverseRecOn with
    | nil => exact ⟨rfl, rfl, rfl⟩
    | append_singleton qs q ih =>
      obtain ⟨ho, hr, hs⟩ := ih
      rw [List.foldl_append]
      simp only [List.foldl_cons, List.foldl_nil]
      set s0 := qs.foldl (fun st q => st.addPoint q.1 q.2.1 q.2.2)
        (StrokePathTs.IncrementalRibbon.mk0 minRadius maxRadius) with hs0
    
      refine ⟨ho, ?_, ?_⟩
      · show s0.rawPoints ++ [(⟨q.1, q.2.1, some q.2.2⟩ : Pt)] = _
        rw [hr, List.map_append]
        rfl
      · have hlast : s0.opts.last = false := by rw [ho]; rfl
        have hstep := addPoint_smoothed_step s0 q.1 q.2.1 q.2.2 hlast (by rw [hs, ho])
        rw [hstep, ho]
        show _ = (smoothPhase (StrokePathTs.ribbonOpts minRadius maxRadius)
          (s0.rawPoints ++ [(⟨q.1, q.2.1, some q.2.2⟩ : Pt)])).map
          (fun q => (⟨q.x, q.y, some q.pressure⟩ : Pt))
        rfl
  obtain ⟨ho, hr, hs⟩ := key ops
  refine ⟨hr, ?_, ?_⟩
  · rw [hs]
  · rw [getPathSP_cmds, ho]

-- ---------------------------------------------------------------------------
-- C8: a single-point stroke assembles to a dot circle
-- ---------------------------------------------------------------------------

theorem outline_two_dot (f : MathFns) (o : StrokePathOptions) (sp0 sp1 : StrokePoint)
    (hnoise : sp1.runningLength - sp0.runningLength < 3)
    (hprev : ¬ dotQ sp1.vx sp1.vy sp0.vx sp0.vy < 0) :
    ∃ a b c d : ℚ, buildOutlineArrays f o [sp0, sp1] = ⟨[a], [b], [c], [d], []⟩ := by
  unfold buildOutlineArrays
  dsimp only
  have hrange : List.range ([sp0, sp1]).length = [0, 1] := rfl
  rw [hrange]
  simp only [List.foldl_cons, List.foldl_nil]
  have hstep0 : outlineStep f o [sp0, sp1] ([sp0, sp1]).length
      (([sp0, sp1].getLastD dummyStrokePoint).runningLength)
      (computeTaperDistance o.startTaper o.size
        (([sp0, sp1].getLastD dummyStrokePoint).runningLength))
      (computeTaperDistance o.endTaper o.size
        (([sp0, sp1].getLastD dummyStrokePoint).runningLength))
      ((o.size * o.smoothing) * (o.size * o.smoothing))
      (⟨[], [], [], [], []⟩, false) 0 = (⟨[], [], [], [], []⟩, false) := by
    unfold outlineStep
    rw [if_pos]
    constructor
    · simp
    · show ([sp0, sp1].getLastD dummyStrokePoint).runningLength -
        sp0.runningLength < END_NOISE_THRESHOLD
      simpa [List.getLastD, END_NOISE_THRESHOLD] using hnoise
  rw [hstep0]
  unfold outlineStep
  rw [if_neg (by simp)]
  have hd1 : (decide
      (dotQ ([sp0, sp1].getD 1 dummyStrokePoint).vx ([sp0, sp1].getD 1 dummyStrokePoint).vy
        ([sp0, sp1].getD (1 - 1) dummyStrokePoint).vx
        ([sp0, sp1].getD (1 - 1) dummyStrokePoint).vy < 0)) = false :=
    decide_eq_false (by simpa using hprev)
  dsimp only [List.getD_cons_succ, List.getD_cons_zero]
  rw [if_neg]
  · exact ⟨_, _, _, _, rfl⟩
  · simp only [show decide (1 = ([sp0, sp1]).length - 1) = true from rfl, if_pos]
    simp only [Bool.not_false, Bool.and_true]
    rw [decide_eq_false (by simpa using hprev)]
    simp only [Bool.false_or]
    intro hcon
    have h10 : ((1 : ℚ) < 0) := by simpa using hcon
    norm_num at h10

theorem two_point_dot (f : MathFns) (o : StrokePathOptions) (sp0 sp1 : StrokePoint)
    (hnoise : sp1.runningLength - sp0.runningLength < 3)
    (hprev : ¬ dotQ sp1.vx sp1.vy sp0.vx sp0.vy < 0) :
    assembleSkiaPath f [sp0, sp1] (buildOutlineArrays f o [sp0, sp1]) o =
      [.addCircle sp0.x sp0.y (max (1/2) sp0.radius)] := by
  obtain ⟨a, b, c, d, hout⟩ := outline_two_dot f o sp0 sp1 hnoise hprev
  rw [hout]
  unfold assembleSkiaPath
  dsimp only
  rw [if_neg (by simp), if_pos (Or.inr ⟨by norm_num, by norm_num⟩)]
  rfl

/-- Claim C8: a single-point input stroke yields exactly one path command,
a filled circle centered at the point, of radius `max(0.5, r)` where `r`
is the pressure-derived radius of the point's processed stroke point; and
with real (non-simulated) pressure, `r` is exactly the thinning/easing
radius formula applied to the point's pressure (with its own MIN_RADIUS
floor).  The hypothesis `f.sqrt 2 < 3` pins the only square root the run
depends on (the distance to the synthetic (+1,+1) companion point) below
the end-noise threshold, as the real Math.sqrt satisfies. -/
theorem C8_single_point_dot (f : MathFns) (o : StrokePathOptions) (p : Pt)
    (hs : f.sqrt 2 < 3) :
    (buildStrokePath f o [p]).cmds =
      [PathCmd.addCircle p.x p.y
        (max (1/2) (((processPoints f o [p]).headD dummyStrokePoint).radius))] ∧
    (o.simulatePressure = false →
      ((processPoints f o [p]).headD dummyStrokePoint).radius =
        (if o.thinning = 0 then o.size / 2
         else max MIN_RADIUS
           (getStrokeRadius o.size o.thinning (p.pressure.getD (1/2)) o.easing))) := by
  have heq : ∃ sp0 sp1, processPoints f o [p] = [sp0, sp1] := ⟨_, _, rfl⟩
  -- facts about the two processed points, all definitional
  have hx : ((processPoints f o [p]).headD dummyStrokePoint).x = p.x := by
    with_unfolding_all rfl
  have hy : ((processPoints f o [p]).headD dummyStrokePoint).y = p.y := by
    with_unfolding_all rfl
  have hrl0 : ((processPoints f o [p]).headD dummyStrokePoint).runningLength = 0 := by
    with_unfolding_all rfl
  have hrl1 : ((processPoints f o [p]).getD 1 dummyStrokePoint).runningLength =
      0 + hypotQ f ((p.x + 1) - p.x) ((p.y + 1) - p.y) := by
    with_unfolding_all rfl
  have hvx : ((processPoints f o [p]).headD dummyStrokePoint).vx =
      ((processPoints f o [p]).getD 1 dummyStrokePoint).vx := by
    with_unfolding_all rfl
  have hvy : ((processPoints f o [p]).headD dummyStrokePoint).vy =
      ((processPoints f o [p]).getD 1 dummyStrokePoint).vy := by
    with_unfolding_all rfl
  have hpress : o.simulatePressure = false →
      ((processPoints f o [p]).headD dummyStrokePoint).pressure = p.pressure.getD (1/2) := by
    intro hsim
    show (if o.simulatePressure then _ else _) = _
    rw [hsim]
    simp
  have hrad : ((processPoints f o [p]).headD dummyStrokePoint).radius =
      (if o.thinning = 0 then o.size / 2
       else max MIN_RADIUS (getStrokeRadius o.size o.thinning
         ((processPoints f o [p]).headD dummyStrokePoint).pressure o.easing)) := by
    with_unfolding_all rfl
  obtain ⟨sp0, sp1, hpp⟩ := heq
  rw [hpp] at hx hy hrl0 hrl1 hvx hvy hpress hrad
  simp only [List.headD_cons, List.getD_cons_succ, List.getD_cons_zero] at hx hy hrl0 hrl1 hvx hvy hpress hrad
  have hnoise : sp1.runningLength - sp0.runningLength < 3 := by
    rw [hrl0, hrl1]
    have h2 : ((p.x + 1) - p.x) * ((p.x + 1) - p.x) + ((p.y + 1) - p.y) * ((p.y + 1) - p.y) =
        2 := by ring
    unfold hypotQ
    rw [h2]
    calc 0 + f.sqrt 2 - 0 = f.sqrt 2 := by ring
      _ < 3 := hs
  have hprev : ¬ dotQ sp1.vx sp1.vy sp0.vx sp0.vy < 0 := by
    rw [hvx, hvy]
    unfold dotQ
    exact not_lt.mpr (add_nonneg (mul_self_nonneg _) (mul_self_nonneg _))
  constructor
  · show (buildStrokePath f o [p]).cmds = _
    unfold buildStrokePath
    rw [if_neg (by simp)]
    dsimp only
    rw [hpp]
    rw [if_neg (by simp)]
    show assembleSkiaPath f [sp0, sp1] (buildOutlineArrays f o [sp0, sp1]) o = _
    rw [two_point_dot f o sp0 sp1 hnoise hprev]
    simp only [List.headD_cons, hx, hy]
  · intro hsim
    rw [hpp]
    simp only [List.headD_cons]
    rw [hrad, hpress hsim]

/-- Witness for C8: the default options and the point (3,4) with pressure
0.5; the assembled path is the single circle of radius 8 = size/2·easing
at pressure ½ (ratSqrt 2 = 1 < 3 discharges the square-root bound). -/
theorem C8_single_point_dot_witness :
    (buildStrokePath ratFns DEFAULT_OPTIONS [⟨3, 4, some (1/2)⟩]).cmds =
      [PathCmd.addCircle (3 : ℚ) (4 : ℚ)
        (max (1/2) (((processPoints ratFns DEFAULT_OPTIONS [⟨3, 4, some (1/2)⟩]).headD
          dummyStrokePoint).radius))] ∧
    (DEFAULT_OPTIONS.simulatePressure = false →
      ((processPoints ratFns DEFAULT_OPTIONS [⟨3, 4, some (1/2)⟩]).headD
          dummyStrokePoint).radius =
        (if DEFAULT_OPTIONS.thinning = 0 then DEFAULT_OPTIONS.size / 2
         else max MIN_RADIUS
           (getStrokeRadius DEFAULT_OPTIONS.size DEFAULT_OPTIONS.thinning
             (((⟨3, 4, some (1/2)⟩ : Pt)).pressure.getD (1/2)) DEFAULT_OPTIONS.easing))) :=
  C8_single_point_dot ratFns DEFAULT_OPTIONS ⟨3, 4, some (1/2)⟩
    (by with_unfolding_all decide)

-- ---------------------------------------------------------------------------
-- C10: invariants of splitStrokeByEraser
-- ---------------------------------------------------------------------------

theorem segmentCircleExitT_bounds (f : MathFns) (a b c : Pt) (r t : ℚ)
    (h : segmentCircleExitT f a b c r = some t) : 0 ≤ t ∧ t ≤ 1 := by
  unfold segmentCircleExitT at h
  dsimp only at h
  split_ifs at h with hv hd h1 h2 h2' h2''
  all_goals simp only [List.cons_append, List.nil_append] at h
  · -- both t1 and t2 in range
    simp only [List.foldl_cons, List.foldl_nil] at h
    obtain rfl : _ = t := Option.some.inj h
    constructor
    · exact le_min h1.1 h2.1
    · exact le_trans (min_le_left _ _) h1.2
  · -- only t1
    simp only [List.foldl_nil] at h
    obtain rfl : _ = t := Option.some.inj h
    exact ⟨h1.1, h1.2⟩
  · -- only t2
    simp only [List.foldl_nil] at h
    obtain rfl : _ = t := Option.some.inj h
    exact ⟨h2'.1, h2'.2.1⟩
  · exact absurd h (by simp)

theorem bestCutT_bounds_aux (f : MathFns) (a b : Pt) (radius : ℚ) (l : List Pt) :
    ∀ acc : Option ℚ, (∀ u, acc = some u → 1/1000000 < u ∧ u ≤ 1) →
    ∀ t, l.foldl
      (fun bestT ep =>
        match segmentCircleExitT f a b ep radius with
        | none => bestT
        | some t =>
          match bestT with
          | none => if 1/1000000 < t then some t else none
          | some bb => if 1/1000000 < t ∧ t < bb then some t else some bb) acc = some t →
      1/1000000 < t ∧ t ≤ 1 := by
  induction l with
  | nil =>
    intro acc hacc t h
    exact hacc t h
  | cons ep l ih =>
    intro acc hacc t h
    refine ih _ ?_ t h
    intro u hu
    dsimp only at hu
    cases hseg : segmentCircleExitT f a b ep radius with
    | none =>
      rw [hseg] at hu
      exact hacc u hu
    | some v =>
      rw [hseg] at hu
      cases hb : acc with
      | none =>
        rw [hb] at hu
        dsimp only at hu
        split_ifs at hu with hlt
        obtain rfl : v = u := Option.some.inj hu
        exact ⟨hlt, (segmentCircleExitT_bounds f a b ep radius v hseg).2⟩
      | some bb =>
        rw [hb] at hu
        dsimp only at hu
        split_ifs at hu with hlt
        · obtain rfl : v = u := Option.some.inj hu
          exact ⟨hlt.1, (segmentCircleExitT_bounds f a b ep radius v hseg).2⟩
        · obtain rfl : bb = u := Option.some.inj hu
          exact hacc bb hb

theorem bestCutT_bounds (f : MathFns) (a b : Pt) (dense : List Pt) (radius t : ℚ)
    (h : bestCutT f a b dense radius = some t) : 1/1000000 < t ∧ t ≤ 1 :=
  bestCutT_bounds_aux f a b radius dense none (by intro u hu; cases hu) t h

theorem cutPointAfterAt_spec (f : MathFns) (points dense : List Pt) (radius : ℚ)
    (i : ℕ) (c : Pt) (h : cutPointAfterAt f points dense radius i = some c) :
    ∃ t : ℚ, 1/1000000 < t ∧ t ≤ 1 ∧
      c.x = (points.getD i dummyPt).x +
        t * ((points.getD (i + 1) dummyPt).x - (points.getD i dummyPt).x) ∧
      c.y = (points.getD i dummyPt).y +
        t * ((points.getD (i + 1) dummyPt).y - (points.getD i dummyPt).y) ∧
      c.pressure = (points.getD i dummyPt).pressure := by
  unfold cutPointAfterAt at h
  split_ifs at h with hsa
  cases hbt : bestCutT f (points.getD i dummyPt) (points.getD (i + 1) dummyPt) dense
      radius with
  | none => rw [hbt] at h; cases h
  | some t =>
    rw [hbt] at h
    obtain rfl : _ = c := Option.some.inj h
    obtain ⟨h1, h2⟩ := bestCutT_bounds f _ _ dense radius t hbt
    exact ⟨t, h1, h2, rfl, rfl, rfl⟩

theorem getD_drop {α : Type} (l : List α) (m k : ℕ) (d : α) :
    (l.drop m).getD k d = l.getD (m + k) d := by
  induction m generalizing l with
  | zero => simp
  | succ m ih =>
    cases l with
    | nil => rfl
    | cons a t =>
      simp only [List.drop_succ_cons]
      rw [ih t]
      have : m + 1 + k = (m + k) + 1 := by omega
      rw [this]
      rfl

theorem sliceOf_singleton (pts : List Pt) (j : ℕ) (h : j < pts.length) :
    sliceOf pts j 1 = [pts.getD j dummyPt] := by
  unfold sliceOf
  cases hd : pts.drop j with
  | nil =>
    have := congrArg List.length hd
    simp only [List.length_drop, List.length_nil] at this
    omega
  | cons a t =>
    have ha : a = pts.getD j dummyPt := by
      have h0 := getD_drop pts j 0 dummyPt
      rw [hd] at h0
      simpa using h0
    simp [ha]

theorem sliceOf_extend (pts : List Pt) (lo j : ℕ) (hlo : lo ≤ j) (hj : j < pts.length) :
    sliceOf pts lo (j - lo) ++ [pts.getD j dummyPt] = sliceOf pts lo (j + 1 - lo) := by
  unfold sliceOf
  have h1 : j + 1 - lo = (j - lo) + 1 := by omega
  have h2 : (pts.drop lo).getD (j - lo) dummyPt = pts.getD j dummyPt := by
    rw [getD_drop]
    congr 1
    omega
  rw [h1, take_succ_getD (pts.drop lo) (j - lo) dummyPt
    (by rw [List.length_drop]; omega), h2]

theorem sliceOf_ne_nil (pts : List Pt) (lo n : ℕ) (hlo : lo < pts.length) (hn : 0 < n) :
    sliceOf pts lo n ≠ [] := by
  unfold sliceOf
  intro hc
  have := congrArg List.length hc
  simp only [List.length_take, List.length_drop, List.length_nil] at this
  omega

theorem scan_invariant (f : MathFns) (points dense : List Pt) (radius : ℚ) :
    ∀ j, j ≤ points.length →
      ∃ rs : List (ℕ × ℕ),
        (∀ pr ∈ rs, RunGood points dense radius pr.1 pr.2) ∧
        rs.Pairwise (fun a b => a.1 + a.2 ≤ b.1) ∧
        ((List.range j).foldl (scanStep f points dense radius) ([], [])).1 =
          rs.map (fun pr => closedGroup f points dense radius pr.1 pr.2) ∧
        ((((List.range j).foldl (scanStep f points dense radius) ([], [])).2 = [] ∧
            ∀ pr ∈ rs, pr.1 + pr.2 ≤ j) ∨
          (∃ lo, lo < j ∧
            ((List.range j).foldl (scanStep f points dense radius) ([], [])).2 =
              sliceOf points lo (j - lo) ∧
            (∀ k, lo ≤ k → k < j →
              isPointErased (points.getD k dummyPt) dense radius = false) ∧
            (∀ k, lo ≤ k → k < j → splitAfterAt points dense radius k = false) ∧
            ∀ pr ∈ rs, pr.1 + pr.2 ≤ lo)) := by
  intro j
  induction j with
  | zero =>
    intro _
    exact ⟨[], by simp, by simp, by simp, Or.inl ⟨rfl, by simp⟩⟩
  | succ n ih =>
    intro hn1
    have hnlt : n < points.length := hn1
    obtain ⟨rs, hgood, hpw, hsegs, hcur⟩ := ih (Nat.le_of_lt hnlt)
    set st := (List.range n).foldl (scanStep f points dense radius) ([], []) with hst
    have hfold : (List.range (n + 1)).foldl (scanStep f points dense radius) ([], []) =
        scanStep f points dense radius st n := by
      rw [List.range_succ, List.foldl_append]
      rfl
    rw [hfold]
    by_cases hker : isPointErased (points.getD n dummyPt) dense radius = true
    · -- point n erased: close the current group if it is open
      have hstep : scanStep f points dense radius st n =
          (if st.2 = [] then st.1 else st.1 ++ [st.2], []) := by
        unfold scanStep
        rw [if_pos hker]
      rw [hstep]
      rcases hcur with ⟨hnil, hb⟩ | ⟨lo, hlon, hslice, hkept, hsah, hb⟩
      · rw [if_pos hnil]
        exact ⟨rs, hgood, hpw, hsegs,
          Or.inl ⟨rfl, fun pr hpr => Nat.le_succ_of_le (hb pr hpr)⟩⟩
      · have hne : st.2 ≠ [] := by
          rw [hslice]
          exact sliceOf_ne_nil points lo (n - lo) (lt_of_le_of_lt (Nat.le_of_lt hlon) hnlt)
            (by omega)
        rw [if_neg hne]
        refine ⟨rs ++ [(lo, n - lo)], ?_, ?_, ?_, Or.inl ⟨rfl, ?_⟩⟩
        · intro pr hpr
          rcases List.mem_append.mp hpr with hm | hm
          · exact hgood pr hm
          · obtain rfl : pr = (lo, n - lo) := List.mem_singleton.mp hm
            exact ⟨by omega, by omega, fun k hk1 hk2 => hkept k hk1 (by omega)⟩
        · refine List.pairwise_append.mpr ⟨hpw, List.pairwise_singleton _ _, ?_⟩
          intro a ha b hbm
          obtain rfl : b = (lo, n - lo) := List.mem_singleton.mp hbm
          exact hb a ha
        · rw [hsegs, List.map_append]
          dsimp only
          congr 1
          simp only [List.map_cons, List.map_nil]
          rw [hslice]
          unfold closedGroup
          have hidx : lo + (n - lo) - 1 = n - 1 := by omega
          rw [hidx, hsah (n - 1) (by omega) (by omega)]
          simp
        · intro pr hpr
          rcases List.mem_append.mp hpr with hm | hm
          · exact le_trans (hb pr hm) (by omega)
          · obtain rfl : pr = (lo, n - lo) := List.mem_singleton.mp hm
            omega
    · -- point n kept
      have hkerf : isPointErased (points.getD n dummyPt) dense radius = false :=
        Bool.not_eq_true _ ▸ Bool.of_not_eq_true hker
      have hlo2 : ∃ lo, lo ≤ n ∧ st.2 = sliceOf points lo (n - lo) ∧
          (∀ k, lo ≤ k → k < n →
            isPointErased (points.getD k dummyPt) dense radius = false) ∧
          (∀ k, lo ≤ k → k < n → splitAfterAt points dense radius k = false) ∧
          ∀ pr ∈ rs, pr.1 + pr.2 ≤ lo := by
        rcases hcur with ⟨hnil, hb⟩ | ⟨lo, hlon, hslice, hkept, hsah, hb⟩
        · exact ⟨n, le_rfl, by rw [hnil]; simp [sliceOf],
            fun k h1 h2 => absurd h2 (by omega),
            fun k h1 h2 => absurd h2 (by omega), hb⟩
        · exact ⟨lo, Nat.le_of_lt hlon, hslice, hkept, hsah, hb⟩
      obtain ⟨lo, hlole, hslice, hkept, hsah, hends⟩ := hlo2
      have hcurx : st.2 ++ [points.getD n dummyPt] = sliceOf points lo (n + 1 - lo) := by
        rw [hslice]
        exact sliceOf_extend points lo n hlole hnlt
      by_cases hsan : splitAfterAt points dense radius n = true
      · -- the segment after point n is touched: close with the cut point
        have hstep : scanStep f points dense radius st n =
            (st.1 ++ [(st.2 ++ [points.getD n dummyPt]) ++
              (cutPointAfterAt f points dense radius n).toList], []) := by
          unfold scanStep
          dsimp only
          rw [if_neg (by rw [hkerf]; exact Bool.false_ne_true), if_pos hsan]
          rw [if_neg (by simp)]
        rw [hstep]
        refine ⟨rs ++ [(lo, n + 1 - lo)], ?_, ?_, ?_, Or.inl ⟨rfl, ?_⟩⟩
        · intro pr hpr
          rcases List.mem_append.mp hpr with hm | hm
          · exact hgood pr hm
          · obtain rfl : pr = (lo, n + 1 - lo) := List.mem_singleton.mp hm
            refine ⟨by omega, by omega, fun k hk1 hk2 => ?_⟩
            rcases Nat.lt_or_ge k n with hk | hk
            · exact hkept k hk1 hk
            · have : k = n := by omega
              rw [this]
              exact hkerf
        · refine List.pairwise_append.mpr ⟨hpw, List.pairwise_singleton _ _, ?_⟩
          intro a ha b hbm
          obtain rfl : b = (lo, n + 1 - lo) := List.mem_singleton.mp hbm
          exact hends a ha
        · rw [hsegs, List.map_append]
          dsimp only
          congr 1
          simp only [List.map_cons, List.map_nil]
          unfold closedGroup
          have hidx : lo + (n + 1 - lo) - 1 = n := by omega
          rw [hidx, if_pos hsan, ← hcurx]
        · intro pr hpr
          rcases List.mem_append.mp hpr with hm | hm
          · exact le_trans (hends pr hm) (by omega)
          · obtain rfl : pr = (lo, n + 1 - lo) := List.mem_singleton.mp hm
            omega
      · -- segment not touched: extend the current group
        have hsanf : splitAfterAt points dense radius n = false :=
          Bool.not_eq_true _ ▸ Bool.of_not_eq_true hsan
        have hstep : scanStep f points dense radius st n =
            (st.1, st.2 ++ [points.getD n dummyPt]) := by
          unfold scanStep
          dsimp only
          rw [if_neg (by rw [hkerf]; exact Bool.false_ne_true),
            if_neg (by rw [hsanf]; exact Bool.false_ne_true)]
        rw [hstep]
        refine ⟨rs, hgood, hpw, hsegs, Or.inr ⟨lo, by omega, hcurx, ?_, ?_, hends⟩⟩
        · intro k hk1 hk2
          rcases Nat.lt_or_ge k n with hk | hk
          · exact hkept k hk1 hk
          · have : k = n := by omega
            rw [this]
            exact hkerf
        · intro k hk1 hk2
          rcases Nat.lt_or_ge k n with hk | hk
          · exact hsah k hk1 hk
          · have : k = n := by omega
            rw [this]
            exact hsanf

/-- Claim C10: every synthesized cut point of splitStrokeByEraser lies on
its segment at a parameter 1e-6 < t ≤ 1 and carries the pressure of the
segment's start point; the output groups are maximal runs of consecutive
kept input points in increasing index order, each extended by at most one
trailing cut point. -/
theorem C10_split_invariants (f : MathFns) (points eraserPath : List Pt) (radius : ℚ) :
    SplitOK f points eraserPath radius := by
  unfold SplitOK
  constructor
  · intro i c h
    exact cutPointAfterAt_spec f points (densifyEraserPath f eraserPath radius) radius i
      c h
  · set dense := densifyEraserPath f eraserPath radius with hdense
    by_cases hnil : points.length = 0
    · refine ⟨[], by simp, by simp, ?_⟩
      unfold splitStrokeByEraser
      rw [if_pos hnil]
      simp
    · obtain ⟨rs, hgood, hpw, hsegs, hcur⟩ :=
        scan_invariant f points dense radius points.length le_rfl
      unfold splitStrokeByEraser
      rw [if_neg hnil]
      dsimp only
      rw [← hdense]
      rcases hcur with ⟨hn, hb⟩ | ⟨lo, hlon, hslice, hkept, hsah, hb⟩
      · rw [if_pos hn]
        exact ⟨rs, hgood, hpw, hsegs⟩
      · have hne : ((List.range points.length).foldl (scanStep f points dense radius)
            ([], [])).2 ≠ [] := by
          rw [hslice]
          exact sliceOf_ne_nil points lo (points.length - lo) hlon (by omega)
        rw [if_neg hne]
        refine ⟨rs ++ [(lo, points.length - lo)], ?_, ?_, ?_⟩
        · intro pr hpr
          rcases List.mem_append.mp hpr with hm | hm
          · exact hgood pr hm
          · obtain rfl : pr = (lo, points.length - lo) := List.mem_singleton.mp hm
            exact ⟨by omega, by omega, fun k hk1 hk2 => hkept k hk1 (by omega)⟩
        · refine List.pairwise_append.mpr ⟨hpw, List.pairwise_singleton _ _, ?_⟩
          intro a ha b hbm
          obtain rfl : b = (lo, points.length - lo) := List.mem_singleton.mp hbm
          exact hb a ha
        · rw [hsegs, List.map_append]
          congr 1
          simp only [List.map_cons, List.map_nil]
          rw [hslice]
          unfold closedGroup
          have hidx : lo + (points.length - lo) - 1 = points.length - 1 := by omega
          rw [hidx, hsah (points.length - 1) (by omega) (by omega)]
          simp

-- ---------------------------------------------------------------------------
-- C2: the Stroke.ts cached IncrementalRibbon versus the batch builder
-- ---------------------------------------------------------------------------

section
open Stroke

/-- Appending a point does not change the tangent at indices at most
`length - 2` (those tangents read only earlier points). -/
theorem stroke_tangentAt_append (pts : List Pt) (q : Pt) (i : ℕ)
    (hi : (i : ℤ) ≤ (pts.length : ℤ) - 2) :
    tangentAt (pts ++ [q]) i = tangentAt pts i := by
  have hlen : 2 ≤ pts.length := by omega
  have hlen' : (pts ++ [q]).length = pts.length + 1 := by simp
  unfold tangentAt
  dsimp only
  rw [hlen']
  rw [if_neg (by omega : ¬ pts.length + 1 = 1), if_neg (by omega : ¬ pts.length = 1)]
  by_cases hi0 : i = 0
  · subst hi0
    rw [if_pos rfl, if_pos rfl,
      getD_append_left pts [q] 0 dummyPt (by omega),
      getD_append_left pts [q] 1 dummyPt (by omega)]
  · rw [if_neg hi0, if_neg hi0,
      if_neg (by omega : ¬ i = pts.length + 1 - 1),
      if_neg (by omega : ¬ i = pts.length - 1),
      getD_append_left pts [q] (i + 1) dummyPt (by omega),
      getD_append_left pts [q] (i - 1) dummyPt (by omega)]

/-- Appending a point does not change the perpendicular at indices at most
`length - 2`. -/
theorem stroke_perpAt_append (f : MathFns) (pts : List Pt) (q : Pt) :
    ∀ i : ℕ, (i : ℤ) ≤ (pts.length : ℤ) - 2 →
    perpAt f (pts ++ [q]) i = perpAt f pts i := by
  intro i
  induction i with
  | zero =>
    intro hi
    show (let txy := tangentAt (pts ++ [q]) 0
          let len := hypotQ f txy.1 txy.2
          if len < 1/1000000 then ((0 : ℚ), (1 : ℚ)) else (-txy.2 / len, txy.1 / len)) =
         (let txy := tangentAt pts 0
          let len := hypotQ f txy.1 txy.2
          if len < 1/1000000 then ((0 : ℚ), (1 : ℚ)) else (-txy.2 / len, txy.1 / len))
    rw [stroke_tangentAt_append pts q 0 hi]
  | succ i ih =>
    intro hi
    show (let txy := tangentAt (pts ++ [q]) (i + 1)
          let len := hypotQ f txy.1 txy.2
          if len < 1/1000000 then perpAt f (pts ++ [q]) i
          else (-txy.2 / len, txy.1 / len)) =
         (let txy := tangentAt pts (i + 1)
          let len := hypotQ f txy.1 txy.2
          if len < 1/1000000 then perpAt f pts i else (-txy.2 / len, txy.1 / len))
    rw [stroke_tangentAt_append pts q (i + 1) hi]
    dsimp only
    split_ifs with h
    · exact ih (by omega)
    · rfl

/-- A correct cached entry at index ≤ length - 2 stays correct when a point
is appended. -/
theorem stroke_entryGood_append (f : MathFns) (s : Stroke.IncrementalRibbon) (q : Pt)
    (i : ℕ) (hi : (i : ℤ) ≤ (s.points.length : ℤ) - 2) (h : EntryGood f s i) :
    EntryGood f { s with points := s.points ++ [q] } i := by
  unfold EntryGood at h ⊢
  dsimp only
  rw [getD_append_left s.points [q] i dummyPt (by omega),
      stroke_perpAt_append f s.points q i hi]
  exact h

/-- addPoint preserves the cache invariant. -/
theorem stroke_addPoint_Inv (f : MathFns) (s : Stroke.IncrementalRibbon) (x y p : ℚ)
    (h : CacheInv f s) : CacheInv f (s.addPoint x y p) := by
  obtain ⟨hcv, l1, l2, l3, l4, l5, l6, l7, hgood⟩ := h
  unfold CacheInv Stroke.IncrementalRibbon.addPoint
  dsimp only
  simp only [List.length_append, List.length_cons, List.length_nil]
  refine ⟨?_, by omega, by omega, by omega, by omega, by omega, by omega, by omega, ?_⟩
  · split_ifs with hc <;> push_cast <;> omega
  · intro i hi
    have hi2 : (i : ℤ) ≤ (s.points.length : ℤ) - 2 ∧ (i : ℤ) ≤ s.cacheValid := by
      split_ifs at hi with hc
      · push_cast at hc hi ⊢
        constructor <;> omega
      · push_cast at hc
        constructor <;> omega
    have hg := stroke_entryGood_append f s ⟨x, y, some p⟩ i hi2.1 (hgood i hi2.2)
    unfold EntryGood at hg ⊢
    exact hg

/-- updateEntry changes no scalar field and no array length. -/
theorem stroke_updateEntry_scalars (f : MathFns) (s : Stroke.IncrementalRibbon) (j : ℕ) :
    (updateEntry f s j).points = s.points ∧
    (updateEntry f s j).minRadius = s.minRadius ∧
    (updateEntry f s j).maxRadius = s.maxRadius ∧
    (updateEntry f s j).cacheValid = s.cacheValid ∧
    (updateEntry f s j).radii.length = s.radii.length ∧
    (updateEntry f s j).perpX.length = s.perpX.length ∧
    (updateEntry f s j).perpY.length = s.perpY.length ∧
    (updateEntry f s j).leftX.length = s.leftX.length ∧
    (updateEntry f s j).leftY.length = s.leftY.length ∧
    (updateEntry f s j).rightX.length = s.rightX.length ∧
    (updateEntry f s j).rightY.length = s.rightY.length := by
  unfold updateEntry
  dsimp only
  refine ⟨rfl, rfl, rfl, rfl, ?_, ?_, ?_, ?_, ?_, ?_, ?_⟩ <;> apply List.length_set

/-- updateEntry at index `j` leaves every other cached entry unchanged. -/
theorem stroke_updateEntry_getD_ne (f : MathFns) (s : Stroke.IncrementalRibbon)
    (j i : ℕ) (h : i ≠ j) :
    (updateEntry f s j).radii.getD i 0 = s.radii.getD i 0 ∧
    (updateEntry f s j).perpX.getD i 0 = s.perpX.getD i 0 ∧
    (updateEntry f s j).perpY.getD i 0 = s.perpY.getD i 0 ∧
    (updateEntry f s j).leftX.getD i 0 = s.leftX.getD i 0 ∧
    (updateEntry f s j).leftY.getD i 0 = s.leftY.getD i 0 ∧
    (updateEntry f s j).rightX.getD i 0 = s.rightX.getD i 0 ∧
    (updateEntry f s j).rightY.getD i 0 = s.rightY.getD i 0 := by
  unfold updateEntry
  dsimp only
  refine ⟨?_, ?_, ?_, ?_, ?_, ?_, ?_⟩ <;>
    exact getD_set_ne _ _ _ _ _ (fun e => h e.symm)

/-- A correct entry stays correct across updateEntry at a different index. -/
theorem stroke_entryGood_updateEntry_ne (f : MathFns) (s : Stroke.IncrementalRibbon)
    (j i : ℕ) (hne : i ≠ j) (h : EntryGood f s i) :
    EntryGood f (updateEntry f s j) i := by
  obtain ⟨g1, g2, g3, g4, g5, g6, g7⟩ := stroke_updateEntry_getD_ne f s j i hne
  obtain ⟨hpts, hmin, hmax, _, _, _, _, _, _, _, _⟩ := stroke_updateEntry_scalars f s j
  unfold EntryGood at h ⊢
  rw [g1, g2, g3, g4, g5, g6, g7, hpts, hmin, hmax]
  exact h

/-- When the previous cached perpendicular is correct, the loop body's
perpendicular (with its cached-fallback) agrees with the batch `perpAt`. -/
theorem stroke_entryPerp_eq (f : MathFns) (s : Stroke.IncrementalRibbon) (j : ℕ)
    (hprev : ∀ i, i + 1 = j → s.perpX.getD i 0 = (perpAt f s.points i).1 ∧
      s.perpY.getD i 0 = (perpAt f s.points i).2) :
    entryPerp f s j = perpAt f s.points j := by
  cases j with
  | zero =>
    unfold entryPerp
    show _ = (let txy := tangentAt s.points 0
              let len := hypotQ f txy.1 txy.2
              if len < 1/1000000 then ((0 : ℚ), (1 : ℚ))
              else (-txy.2 / len, txy.1 / len))
    dsimp only
    split_ifs with h1 h2
    · exact absurd h2 (lt_irrefl 0)
    · rfl
    · rfl
  | succ i =>
    unfold entryPerp
    show _ = (let txy := tangentAt s.points (i + 1)
              let len := hypotQ f txy.1 txy.2
              if len < 1/1000000 then perpAt f s.points i
              else (-txy.2 / len, txy.1 / len))
    dsimp only
    split_ifs with h1 h2
    · obtain ⟨hx, hy⟩ := hprev i rfl
      simp only [Nat.add_sub_cancel]
      rw [hx, hy]
    · exact absurd (Nat.succ_pos i) h2
    · rfl

/-- The loop body makes entry `j` correct, given the previous perpendicular
entry is correct and the arrays are long enough. -/
theorem stroke_updateEntry_good (f : MathFns) (s : Stroke.IncrementalRibbon) (j : ℕ)
    (hr : j < s.radii.length) (hpx : j < s.perpX.length) (hpy : j < s.perpY.length)
    (hlx : j < s.leftX.length) (hly : j < s.leftY.length)
    (hrx : j < s.rightX.length) (hry : j < s.rightY.length)
    (hprev : ∀ i, i + 1 = j → s.perpX.getD i 0 = (perpAt f s.points i).1 ∧
      s.perpY.getD i 0 = (perpAt f s.points i).2) :
    EntryGood f (updateEntry f s j) j := by
  have hp := stroke_entryPerp_eq f s j hprev
  unfold EntryGood updateEntry
  dsimp only
  rw [getD_set_self _ _ _ _ hr, getD_set_self _ _ _ _ hpx, getD_set_self _ _ _ _ hpy,
      getD_set_self _ _ _ _ hlx, getD_set_self _ _ _ _ hly,
      getD_set_self _ _ _ _ hrx, getD_set_self _ _ _ _ hry, hp]
  exact ⟨rfl, rfl, rfl, rfl, rfl, rfl, rfl⟩

/-- The _updateCache loop changes no scalar field and no array length. -/
theorem stroke_foldl_scalars (f : MathFns) :
    ∀ (k start : ℕ) (s : Stroke.IncrementalRibbon),
    ((List.range' start k).foldl (updateEntry f) s).points = s.points ∧
    ((List.range' start k).foldl (updateEntry f) s).minRadius = s.minRadius ∧
    ((List.range' start k).foldl (updateEntry f) s).maxRadius = s.maxRadius ∧
    ((List.range' start k).foldl (updateEntry f) s).cacheValid = s.cacheValid ∧
    ((List.range' start k).foldl (updateEntry f) s).radii.length = s.radii.length ∧
    ((List.range' start k).foldl (updateEntry f) s).perpX.length = s.perpX.length ∧
    ((List.range' start k).foldl (updateEntry f) s).perpY.length = s.perpY.length ∧
    ((List.range' start k).foldl (updateEntry f) s).leftX.length = s.leftX.length ∧
    ((List.range' start k).foldl (updateEntry f) s).leftY.length = s.leftY.length ∧
    ((List.range' start k).foldl (updateEntry f) s).rightX.length = s.rightX.length ∧
    ((List.range' start k).foldl (updateEntry f) s).rightY.length = s.rightY.length := by
  intro k
  induction k with
  | zero =>
    intro start s
    exact ⟨rfl, rfl, rfl, rfl, rfl, rfl, rfl, rfl, rfl, rfl, rfl⟩
  | succ k ih =>
    intro start s
    rw [List.range'_succ, List.foldl_cons]
    obtain ⟨a1, a2, a3, a4, a5, a6, a7, a8, a9, a10, a11⟩ :=
      ih (start + 1) (updateEntry f s start)
    obtain ⟨b1, b2, b3, b4, b5, b6, b7, b8, b9, b10, b11⟩ :=
      stroke_updateEntry_scalars f s start
    exact ⟨a1.trans b1, a2.trans b2, a3.trans b3, a4.trans b4, a5.trans b5,
      a6.trans b6, a7.trans b7, a8.trans b8, a9.trans b9, a10.trans b10, a11.trans b11⟩

/-- The _updateCache loop starting at `start` leaves every cached entry
below `start` unchanged. -/
theorem stroke_foldl_getD_lt (f : MathFns) :
    ∀ (k start : ℕ) (s : Stroke.IncrementalRibbon) (i : ℕ), i < start →
    ((List.range' start k).foldl (updateEntry f) s).radii.getD i 0 = s.radii.getD i 0 ∧
    ((List.range' start k).foldl (updateEntry f) s).perpX.getD i 0 = s.perpX.getD i 0 ∧
    ((List.range' start k).foldl (updateEntry f) s).perpY.getD i 0 = s.perpY.getD i 0 ∧
    ((List.range' start k).foldl (updateEntry f) s).leftX.getD i 0 = s.leftX.getD i 0 ∧
    ((List.range' start k).foldl (updateEntry f) s).leftY.getD i 0 = s.leftY.getD i 0 ∧
    ((List.range' start k).foldl (updateEntry f) s).rightX.getD i 0 = s.rightX.getD i 0 ∧
    ((List.range' start k).foldl (updateEntry f) s).rightY.getD i 0 = s.rightY.getD i 0 := by
  intro k
  induction k with
  | zero =>
    intro start s i hi
    exact ⟨rfl, rfl, rfl, rfl, rfl, rfl, rfl⟩
  | succ k ih =>
    intro start s i hi
    rw [List.range'_succ, List.foldl_cons]
    obtain ⟨a1, a2, a3, a4, a5, a6, a7⟩ :=
      ih (start + 1) (updateEntry f s start) i (by omega)
    obtain ⟨b1, b2, b3, b4, b5, b6, b7⟩ :=
      stroke_updateEntry_getD_ne f s start i (by omega)
    exact ⟨a1.trans b1, a2.trans b2, a3.trans b3, a4.trans b4, a5.trans b5,
      a6.trans b6, a7.trans b7⟩

/-- The _updateCache loop makes every entry correct, given the entries
below `start` already are and the arrays have full length. -/
theorem stroke_foldl_good (f : MathFns) :
    ∀ (k start : ℕ) (s : Stroke.IncrementalRibbon),
    start + k = s.points.length →
    s.radii.length = s.points.length →
    s.perpX.length = s.points.length →
    s.perpY.length = s.points.length →
    s.leftX.length = s.points.length →
    s.leftY.length = s.points.length →
    s.rightX.length = s.points.length →
    s.rightY.length = s.points.length →
    (∀ i, i < start → EntryGood f s i) →
    ∀ i, i < s.points.length →
    EntryGood f ((List.range' start k).foldl (updateEntry f) s) i := by
  intro k
  induction k with
  | zero =>
    intro start s hsum hl1 hl2 hl3 hl4 hl5 hl6 hl7 hgood i hi
    exact hgood i (by omega)
  | succ k ih =>
    intro start s hsum hl1 hl2 hl3 hl4 hl5 hl6 hl7 hgood i hi
    rw [List.range'_succ, List.foldl_cons]
    obtain ⟨spts, smin, smax, scv, sr, spx, spy, slx, sly, srx, sry⟩ :=
      stroke_updateEntry_scalars f s start
    have hgood' : ∀ i2, i2 < start + 1 → EntryGood f (updateEntry f s start) i2 := by
      intro i2 hi2
      by_cases he : i2 = start
      · subst he
        refine stroke_updateEntry_good f s i2 (by omega) (by omega) (by omega)
          (by omega) (by omega) (by omega) (by omega) ?_
        intro i3 h3
        have hg := hgood i3 (by omega)
        exact ⟨hg.2.1, hg.2.2.1⟩
      · exact stroke_entryGood_updateEntry_ne f s start i2 he (hgood i2 (by omega))
    have hres := ih (start + 1) (updateEntry f s start)
      (by rw [spts]; omega)
      (by rw [sr, spts]; exact hl1) (by rw [spx, spts]; exact hl2)
      (by rw [spy, spts]; exact hl3) (by rw [slx, spts]; exact hl4)
      (by rw [sly, spts]; exact hl5) (by rw [srx, spts]; exact hl6)
      (by rw [sry, spts]; exact hl7) hgood'
    exact hres i (by rw [spts]; exact hi)

/-- Entries of a replicate-0 list read as 0. -/
theorem getD_replicate_zero (m i : ℕ) : (List.replicate m (0 : ℚ)).getD i 0 = 0 := by
  induction m generalizing i with
  | zero => cases i <;> rfl
  | succ m ih =>
    cases i with
    | zero => rfl
    | succ i => exact ih i

/-- Reading past the left part of an append. -/
theorem getD_append_ge {α : Type} (l l' : List α) (i : ℕ) (d : α) (h : l.length ≤ i) :
    (l ++ l').getD i d = l'.getD (i - l.length) d := by
  induction l generalizing i with
  | nil => simp
  | cons a t ihl =>
    cases i with
    | zero => simp at h
    | succ i =>
      simp only [List.cons_append, List.getD_cons_succ, List.length_cons,
        Nat.succ_sub_succ]
      exact ihl i (by simpa using h)

/-- Growing the cached arrays with zero padding changes no read value. -/
theorem stroke_getD_growTo (l : List ℚ) (n i : ℕ) :
    (Stroke.growTo l n).getD i 0 = l.getD i 0 := by
  unfold Stroke.growTo
  by_cases h : i < l.length
  · exact getD_append_left _ _ _ _ h
  · rw [getD_of_length_le l i 0 (le_of_not_lt h),
      getD_append_ge _ _ _ _ (le_of_not_lt h), getD_replicate_zero]

/-- growTo pads exactly to the requested length. -/
theorem stroke_growTo_length (l : List ℚ) (n : ℕ) (h : l.length ≤ n) :
    (Stroke.growTo l n).length = n := by
  unfold Stroke.growTo
  rw [List.length_append, List.length_replicate]
  omega

/-- A correct entry is unaffected by zero-padding the arrays. -/
theorem stroke_entryGood_grown (f : MathFns) (s : Stroke.IncrementalRibbon)
    (n : ℕ) (i : ℕ) (h : EntryGood f s i) :
    EntryGood f
      { s with
          radii := Stroke.growTo s.radii n,
          perpX := Stroke.growTo s.perpX n,
          perpY := Stroke.growTo s.perpY n,
          leftX := Stroke.growTo s.leftX n,
          leftY := Stroke.growTo s.leftY n,
          rightX := Stroke.growTo s.rightX n,
          rightY := Stroke.growTo s.rightY n } i := by
  unfold EntryGood at h ⊢
  dsimp only
  rw [stroke_getD_growTo, stroke_getD_growTo, stroke_getD_growTo, stroke_getD_growTo,
    stroke_getD_growTo, stroke_getD_growTo, stroke_getD_growTo]
  exact h

/-- A correct entry is unaffected by changing the watermark. -/
theorem stroke_entryGood_cv (f : MathFns) (s : Stroke.IncrementalRibbon)
    (c : ℤ) (i : ℕ) (h : EntryGood f s i) :
    EntryGood f { s with cacheValid := c } i := by
  unfold EntryGood at h ⊢
  exact h

/-- _updateCache keeps the points and settings, and on a non-empty point
list it leaves every array at full length, the watermark at the last
index, and every entry correct. -/
theorem stroke_updateCache_good (f : MathFns) (s : Stroke.IncrementalRibbon)
    (h : CacheInv f s) :
    (s.updateCache f).points = s.points ∧
    (s.updateCache f).minRadius = s.minRadius ∧
    (s.updateCache f).maxRadius = s.maxRadius ∧
    (0 < s.points.length →
      (s.updateCache f).cacheValid = (s.points.length : ℤ) - 1 ∧
      (s.updateCache f).radii.length = s.points.length ∧
      (s.updateCache f).perpX.length = s.points.length ∧
      (s.updateCache f).perpY.length = s.points.length ∧
      (s.updateCache f).leftX.length = s.points.length ∧
      (s.updateCache f).leftY.length = s.points.length ∧
      (s.updateCache f).rightX.length = s.points.length ∧
      (s.updateCache f).rightY.length = s.points.length ∧
      ∀ i, i < s.points.length → EntryGood f (s.updateCache f) i) := by
  obtain ⟨hcv, l1, l2, l3, l4, l5, l6, l7, hgood⟩ := h
  unfold Stroke.IncrementalRibbon.updateCache
  dsimp only
  by_cases h0 : s.points.length = 0
  · rw [if_pos h0]
    exact ⟨rfl, rfl, rfl, fun hl => absurd hl (by omega)⟩
  · rw [if_neg h0]
    dsimp only
    refine ⟨?_, ?_, ?_, ?_⟩
    · rw [(stroke_foldl_scalars f _ _ _).1]
    · rw [(stroke_foldl_scalars f _ _ _).2.1]
    · rw [(stroke_foldl_scalars f _ _ _).2.2.1]
    · intro hl
      refine ⟨rfl, ?_, ?_, ?_, ?_, ?_, ?_, ?_, ?_⟩
      · rw [(stroke_foldl_scalars f _ _ _).2.2.2.2.1]
        exact stroke_growTo_length _ _ l1
      · rw [(stroke_foldl_scalars f _ _ _).2.2.2.2.2.1]
        exact stroke_growTo_length _ _ l2
      · rw [(stroke_foldl_scalars f _ _ _).2.2.2.2.2.2.1]
        exact stroke_growTo_length _ _ l3
      · rw [(stroke_foldl_scalars f _ _ _).2.2.2.2.2.2.2.1]
        exact stroke_growTo_length _ _ l4
      · rw [(stroke_foldl_scalars f _ _ _).2.2.2.2.2.2.2.2.1]
        exact stroke_growTo_length _ _ l5
      · rw [(stroke_foldl_scalars f _ _ _).2.2.2.2.2.2.2.2.2.1]
        exact stroke_growTo_length _ _ l6
      · rw [(stroke_foldl_scalars f _ _ _).2.2.2.2.2.2.2.2.2.2]
        exact stroke_growTo_length _ _ l7
      · intro i hi
        apply stroke_entryGood_cv
        refine stroke_foldl_good f _ _ _ ?_ ?_ ?_ ?_ ?_ ?_ ?_ ?_ ?_ i ?_
        · dsimp only
          omega
        · dsimp only
          exact stroke_growTo_length _ _ l1
        · dsimp only
          exact stroke_growTo_length _ _ l2
        · dsimp only
          exact stroke_growTo_length _ _ l3
        · dsimp only
          exact stroke_growTo_length _ _ l4
        · dsimp only
          exact stroke_growTo_length _ _ l5
        · dsimp only
          exact stroke_growTo_length _ _ l6
        · dsimp only
          exact stroke_growTo_length _ _ l7
        · intro i2 hi2
          exact stroke_entryGood_grown f s s.points.length i2 (hgood i2 (by omega))
        · dsimp only
          exact hi

/-- _updateCache preserves the cache invariant. -/
theorem stroke_updateCache_Inv (f : MathFns) (s : Stroke.IncrementalRibbon)
    (h : CacheInv f s) : CacheInv f (s.updateCache f) := by
  obtain ⟨hpts, hmin, hmax, himp⟩ := stroke_updateCache_good f s h
  by_cases h0 : s.points.length = 0
  · have he : s.updateCache f = s := by
      unfold Stroke.IncrementalRibbon.updateCache
      dsimp only
      rw [if_pos h0]
    rw [he]
    exact h
  · obtain ⟨hcv, m1, m2, m3, m4, m5, m6, m7, hent⟩ := himp (Nat.pos_of_ne_zero h0)
    unfold CacheInv
    rw [hpts, hcv, m1, m2, m3, m4, m5, m6, m7]
    refine ⟨le_refl _, le_refl _, le_refl _, le_refl _, le_refl _, le_refl _,
      le_refl _, le_refl _, ?_⟩
    intro i hi
    exact hent i (by omega)

/-- A fresh ribbon satisfies the cache invariant. -/
theorem stroke_mk0_Inv (f : MathFns) (a b : ℚ) :
    CacheInv f (Stroke.IncrementalRibbon.mk0 a b) := by
  unfold CacheInv Stroke.IncrementalRibbon.mk0
  refine ⟨by simp, by simp, by simp, by simp, by simp, by simp, by simp, by simp, ?_⟩
  intro i hi
  dsimp only at hi
  exact absurd hi (by omega)

/-- getPath's state component is exactly the cache update. -/
theorem stroke_getPath_fst (f : MathFns) (s : Stroke.IncrementalRibbon) :
    (s.getPath f).1 = s.updateCache f := by
  unfold Stroke.IncrementalRibbon.getPath
  dsimp only
  split_ifs <;> rfl

/-- Every state reachable through the public API satisfies the invariant. -/
theorem stroke_reachable_Inv (f : MathFns) (s : Stroke.IncrementalRibbon)
    (h : Reachable f s) : CacheInv f s := by
  induction h with
  | init a b => exact stroke_mk0_Inv f a b
  | add s x y p _ ih => exact stroke_addPoint_Inv f s x y p ih
  | path s _ ih =>
    rw [stroke_getPath_fst]
    exact stroke_updateCache_Inv f s ih
  | res s _ ih => exact stroke_mk0_Inv f s.minRadius s.maxRadius

/-- Reading a range-map at an in-range index. -/
theorem getD_range_map {α : Type} (g : ℕ → α) (n i : ℕ) (d : α) (h : i < n) :
    ((List.range n).map g).getD i d = g i := by
  rw [List.getD_eq_getElem?_getD, List.getElem?_map, List.getElem?_range h]
  rfl

/-- On any state satisfying the cache invariant, getPath produces exactly
the command list of the batch builder over the same points and settings. -/
theorem stroke_getPath_eq_batch (f : MathFns) (s : Stroke.IncrementalRibbon)
    (h : CacheInv f s) :
    (s.getPath f).2.cmds = (buildRibbonPath f s.points s.minRadius s.maxRadius).cmds := by
  obtain ⟨hpts, hmin, hmax, himp⟩ := stroke_updateCache_good f s h
  unfold Stroke.IncrementalRibbon.getPath Stroke.buildRibbonPath
  dsimp only
  rw [hpts]
  by_cases h0 : s.points.length = 0
  · rw [if_pos h0, if_pos h0]
  · rw [if_neg h0, if_neg h0]
    obtain ⟨hcv, m1, m2, m3, m4, m5, m6, m7, hent⟩ := himp (by omega)
    by_cases h1 : s.points.length = 1
    · rw [if_pos h1, if_pos h1]
      dsimp only
      have hg := (hent 0 (by omega)).1
      rw [hpts, hmin, hmax] at hg
      rw [hg]
      unfold pressureRadius
      rw [← max_assoc, max_self]
    · rw [if_neg h1, if_neg h1]
      dsimp only
      have hr : (s.updateCache f).radii = (List.range s.points.length).map
          (fun i => pressureRadius s.minRadius s.maxRadius (s.points.getD i dummyPt)) := by
        refine list_eq_of_getD 0 _ _ ?_ ?_
        · rw [m1, List.length_map, List.length_range]
        · intro i hi
          rw [m1] at hi
          have hg := (hent i hi).1
          rw [hpts, hmin, hmax] at hg
          rw [hg, getD_range_map _ _ _ _ hi]
      have hpx : (s.updateCache f).perpX = (List.range s.points.length).map
          (fun i => (perpAt f s.points i).1) := by
        refine list_eq_of_getD 0 _ _ ?_ ?_
        · rw [m2, List.length_map, List.length_range]
        · intro i hi
          rw [m2] at hi
          have hg := (hent i hi).2.1
          rw [hpts] at hg
          rw [hg, getD_range_map _ _ _ _ hi]
      have hpy : (s.updateCache f).perpY = (List.range s.points.length).map
          (fun i => (perpAt f s.points i).2) := by
        refine list_eq_of_getD 0 _ _ ?_ ?_
        · rw [m3, List.length_map, List.length_range]
        · intro i hi
          rw [m3] at hi
          have hg := (hent i hi).2.2.1
          rw [hpts] at hg
          rw [hg, getD_range_map _ _ _ _ hi]
      have hlxe : (s.updateCache f).leftX = (List.range s.points.length).map
          (fun i => (s.points.getD i dummyPt).x +
            (perpAt f s.points i).1 *
              pressureRadius s.minRadius s.maxRadius (s.points.getD i dummyPt)) := by
        refine list_eq_of_getD 0 _ _ ?_ ?_
        · rw [m4, List.length_map, List.length_range]
        · intro i hi
          rw [m4] at hi
          have hg := (hent i hi).2.2.2.1
          rw [hpts, hmin, hmax] at hg
          rw [hg, getD_range_map _ _ _ _ hi]
      have hlye : (s.updateCache f).leftY = (List.range s.points.length).map
          (fun i => (s.points.getD i dummyPt).y +
            (perpAt f s.points i).2 *
              pressureRadius s.minRadius s.maxRadius (s.points.getD i dummyPt)) := by
        refine list_eq_of_getD 0 _ _ ?_ ?_
        · rw [m5, List.length_map, List.length_range]
        · intro i hi
          rw [m5] at hi
          have hg := (hent i hi).2.2.2.2.1
          rw [hpts, hmin, hmax] at hg
          rw [hg, getD_range_map _ _ _ _ hi]
      have hrxe : (s.updateCache f).rightX = (List.range s.points.length).map
          (fun i => (s.points.getD i dummyPt).x -
            (perpAt f s.points i).1 *
              pressureRadius s.minRadius s.maxRadius (s.points.getD i dummyPt)) := by
        refine list_eq_of_getD 0 _ _ ?_ ?_
        · rw [m6, List.length_map, List.length_range]
        · intro i hi
          rw [m6] at hi
          have hg := (hent i hi).2.2.2.2.2.1
          rw [hpts, hmin, hmax] at hg
          rw [hg, getD_range_map _ _ _ _ hi]
      have hrye : (s.updateCache f).rightY = (List.range s.points.length).map
          (fun i => (s.points.getD i dummyPt).y -
            (perpAt f s.points i).2 *
              pressureRadius s.minRadius s.maxRadius (s.points.getD i dummyPt)) := by
        refine list_eq_of_getD 0 _ _ ?_ ?_
        · rw [m7, List.length_map, List.length_range]
        · intro i hi
          rw [m7] at hi
          have hg := (hent i hi).2.2.2.2.2.2
          rw [hpts, hmin, hmax] at hg
          rw [hg, getD_range_map _ _ _ _ hi]
      rw [hr, hpx, hpy, hlxe, hlye, hrxe, hrye]

/-- After addPoint on a fully-cached state, _updateCache recomputes only
the last two entries: every entry strictly below the old last index keeps
its previous value in all seven arrays. -/
theorem stroke_addPoint_updateCache_preserve (f : MathFns)
    (s : Stroke.IncrementalRibbon) (x y p : ℚ) (i : ℕ)
    (hfull : s.cacheValid = (s.points.length : ℤ) - 1)
    (hi : (i : ℤ) < (s.points.length : ℤ) - 1) :
    ((s.addPoint x y p).updateCache f).radii.getD i 0 = s.radii.getD i 0 ∧
    ((s.addPoint x y p).updateCache f).perpX.getD i 0 = s.perpX.getD i 0 ∧
    ((s.addPoint x y p).updateCache f).perpY.getD i 0 = s.perpY.getD i 0 ∧
    ((s.addPoint x y p).updateCache f).leftX.getD i 0 = s.leftX.getD i 0 ∧
    ((s.addPoint x y p).updateCache f).leftY.getD i 0 = s.leftY.getD i 0 ∧
    ((s.addPoint x y p).updateCache f).rightX.getD i 0 = s.rightX.getD i 0 ∧
    ((s.addPoint x y p).updateCache f).rightY.getD i 0 = s.rightY.getD i 0 := by
  have hcondA : (((s.points ++ [(⟨x, y, some p⟩ : Pt)]).length : ℕ) : ℤ) - 2 ≤
      s.cacheValid := by
    simp only [List.length_append, List.length_cons, List.length_nil]
    omega
  have hcondB : ¬ (s.points ++ [(⟨x, y, some p⟩ : Pt)]).length = 0 := by
    simp
  unfold Stroke.IncrementalRibbon.addPoint
  dsimp only
  rw [if_pos hcondA]
  unfold Stroke.IncrementalRibbon.updateCache
  dsimp only
  rw [if_neg hcondB]
  dsimp only
  have hstart : i < (max (-1) ((((s.points ++ [(⟨x, y, some p⟩ : Pt)]).length : ℕ) : ℤ)
      - 3) + 1).toNat := by
    simp only [List.length_append, List.length_cons, List.length_nil]
    omega
  refine ⟨(stroke_foldl_getD_lt f _ _ _ i hstart).1.trans ?_,
    (stroke_foldl_getD_lt f _ _ _ i hstart).2.1.trans ?_,
    (stroke_foldl_getD_lt f _ _ _ i hstart).2.2.1.trans ?_,
    (stroke_foldl_getD_lt f _ _ _ i hstart).2.2.2.1.trans ?_,
    (stroke_foldl_getD_lt f _ _ _ i hstart).2.2.2.2.1.trans ?_,
    (stroke_foldl_getD_lt f _ _ _ i hstart).2.2.2.2.2.1.trans ?_,
    (stroke_foldl_getD_lt f _ _ _ i hstart).2.2.2.2.2.2.trans ?_⟩ <;>
    exact stroke_getD_growTo _ _ _

/-- Claim C2: for the cached fixed min/max-radius IncrementalRibbon of
Stroke.ts, reached through any sequence of public API calls: (1) each
addPoint lowers the cache-valid watermark to at most
`max(-1, newLength - 3)`; (2) when the cache was fully valid, the
subsequent cache update recomputes only the last two entries — every
cached entry strictly below the old last index keeps its previous value
in all seven per-point arrays; and (3) the path returned by getPath() is
identical, up to the volatility hint, to the path the batch builder
buildRibbonPath computes from scratch over the same point list with the
same minRadius/maxRadius. -/
theorem C2_cached_ribbon (f : MathFns) (s : Stroke.IncrementalRibbon)
    (h : Stroke.Reachable f s) :
    (∀ x y p : ℚ,
      (s.addPoint x y p).cacheValid ≤ max (-1) ((s.points.length : ℤ) + 1 - 3)) ∧
    (s.cacheValid = (s.points.length : ℤ) - 1 →
      ∀ (x y p : ℚ) (i : ℕ), (i : ℤ) < (s.points.length : ℤ) - 1 →
      (((s.addPoint x y p).updateCache f).radii.getD i 0 = s.radii.getD i 0 ∧
       ((s.addPoint x y p).updateCache f).perpX.getD i 0 = s.perpX.getD i 0 ∧
       ((s.addPoint x y p).updateCache f).perpY.getD i 0 = s.perpY.getD i 0 ∧
       ((s.addPoint x y p).updateCache f).leftX.getD i 0 = s.leftX.getD i 0 ∧
       ((s.addPoint x y p).updateCache f).leftY.getD i 0 = s.leftY.getD i 0 ∧
       ((s.addPoint x y p).updateCache f).rightX.getD i 0 = s.rightX.getD i 0 ∧
       ((s.addPoint x y p).updateCache f).rightY.getD i 0 = s.rightY.getD i 0)) ∧
    (s.getPath f).2.cmds =
      (Stroke.buildRibbonPath f s.points s.minRadius s.maxRadius).cmds := by
  refine ⟨?_, ?_, ?_⟩
  · intro x y p
    unfold Stroke.IncrementalRibbon.addPoint
    dsimp only
    simp only [List.length_append, List.length_cons, List.length_nil]
    split_ifs with hc
    · omega
    · push_cast at hc ⊢
      omega
  · intro hfull x y p i hi
    exact stroke_addPoint_updateCache_preserve f s x y p i hfull hi
  · exact stroke_getPath_eq_batch f s (stroke_reachable_Inv f s h)

/-- The C2 equality checked on a concrete reachable two-point ribbon. -/
theorem C2_cached_ribbon_witness :
    (c2state.getPath ratFns).2.cmds =
      (Stroke.buildRibbonPath ratFns c2state.points c2state.minRadius
        c2state.maxRadius).cmds :=
  (C2_cached_ribbon ratFns c2state
    (Stroke.Reachable.add _ 4 0 (3/4)
      (Stroke.Reachable.add _ 0 0 (1/2) (Stroke.Reachable.init 1 3)))).2.2

end
